import Mathlib

/-!
# Verification of the BO4E schema-drift comparator

Shallow embedding of `src/scripts/compare_schemas.py`, the tool that
compares a Python-side and a Rust-side schema snapshot of the BO4E data
model and reports structural drift.

Modelling conventions:

* A Python `dict` with string keys is an association list (`Dict α`);
  real dicts have unique keys, so lookup of the first binding is faithful.
* A Python `set` of strings is kept as the list it was built from and is
  consumed only through membership, emptiness and `sortedDedup`
  (`sorted(set(...))`), which is how the script consumes its sets.
* A model entry of a snapshot stands for the value of
  `models[name].get("properties", {})`: a mapping from field name to the
  value of the field's `"type"` key (`none` when the `"type"` key is
  absent).  The script never looks at any other part of the JSON schema.
* String formatting of a sorted list of plain strings
  (`f"fields: {sorted(s)}"`) is modelled by `pyListRepr`, single-quote
  quoting without escape handling (the repo's field/variant names are
  plain identifiers).
* `main`'s file I/O and JSON parsing are abstracted into `Option Snapshot`
  inputs of `mainRun`; `none` models a missing snapshot document.

In the vocabulary of the specification, snapshot A is the Python side and
snapshot B is the Rust side: the report's `missingInB` collection is
`missing_in_rust` (the renderer titles it "Missing in Rust (exists in
Python)") and `missingInA` is `missing_in_python`.
-/

namespace BO4E

/-- A Python dict with string keys, embedded as an association list
(the first binding wins on lookup; real dicts have unique keys). -/
abbrev Dict (α : Type) := List (String × α)

/-- `d.keys()`. -/
def keys {α : Type} (d : Dict α) : List String := d.map Prod.fst

/-- `k in d` for a Python dict. -/
def containsKey {α : Type} (d : Dict α) (k : String) : Bool := (keys d).contains k

/-- `d[k] = v` on a Python dict: overwrite in place when the key exists,
otherwise append a new binding at the end. -/
def dictInsert {α : Type} (d : Dict α) (k : String) (v : α) : Dict α :=
  if containsKey d k then d.map (fun p => if p.1 == k then (k, v) else p) else d ++ [(k, v)]

/-- Decidability of the lexicographic order on strings through their
character lists.  (Core's own string comparison walks byte iterators and
does not reduce in the kernel; this instance lets concrete sorts be
evaluated by `decide`/`rfl`.  The order is the same: `sorted` in Python
compares strings lexicographically by code point.) -/
def strDecLE : DecidableRel ((· ≤ ·) : String → String → Prop) :=
  fun a b => decidable_of_iff (a.data ≤ b.data) (by exact String.le_iff_toList_le.symm)

/-- `sorted(set(l))`: the sorted list of the distinct elements of `l`. -/
def sortedDedup (l : List String) : List String :=
  @List.insertionSort String (· ≤ ·) strDecLE l.dedup

/-- Python set difference `set(a) - set(b)`, kept as a list. -/
def setDiff (a b : List String) : List String := a.filter (fun x => !(b.contains x))

/-- Python set intersection `set(a) & set(b)`, kept as a list. -/
def setInter (a b : List String) : List String := a.filter (fun x => b.contains x)

/-- `repr` of a Python list of plain strings, as an f-string interpolates it. -/
def pyListRepr (l : List String) : String :=
  "[" ++ String.intercalate ", " (l.map (fun s => "'" ++ s ++ "'")) ++ "]"

/-- The value of one entry of a type's `properties` dict: just its `"type"`
tag, `none` when the `"type"` key is absent. -/
abbrev Props := Dict (Option String)

/-- One category's table of type definitions (`bo` or `com`). -/
abbrev Models := Dict Props

/-- The `enum` table: enum name to list of variant names. -/
abbrev Enums := Dict (List String)

/-- `DriftReport` of `compare_schemas.py` (lines 18-27). -/
structure DriftReport where
  missing_in_rust : Dict String
  missing_in_python : Dict String
  type_mismatches : List String
deriving Repr, DecidableEq

/-- `DriftReport()` with its default (empty) factories. -/
def emptyReport : DriftReport := ⟨[], [], []⟩

/-- `DriftReport.has_drift` (lines 25-27):
`bool(self.missing_in_rust or self.missing_in_python or self.type_mismatches)`. -/
def DriftReport.has_drift (r : DriftReport) : Bool :=
  !r.missing_in_rust.isEmpty || !r.missing_in_python.isEmpty || !r.type_mismatches.isEmpty

/-- The fixed ignore set of `compare_models` (line 69):
`{"_typ", "_version", "_id", "zusatzAttribute"}`. -/
def ignore_fields : List String := ["_typ", "_version", "_id", "zusatzAttribute"]

/-- The body of one type-mismatch entry with the qualified prefix already
assembled: `f"{pre}: Python={py_type}, Rust={rs_type}"`. -/
def mismatchText (pre py_type rs_type : String) : String :=
  pre ++ ": Python=" ++ py_type ++ ", Rust=" ++ rs_type

/-- `f"{category}/{name}.{fld}: Python={py_type}, Rust={rs_type}"` (line 88). -/
def mismatchEntry (category name fld py_type rs_type : String) : String :=
  mismatchText (category ++ "/" ++ name ++ "." ++ fld) py_type rs_type

/-- One iteration of the type-mismatch loop of `compare_models`
(lines 83-89): `py_type = py_props[fld].get("type")` etc., and
`if py_type and rs_type and py_type != rs_type: append(...)`.
An absent or empty (falsy) tag on either side appends nothing. -/
def fieldStep (category name : String) (py_props rs_props : Props)
    (rep : DriftReport) (fld : String) : DriftReport :=
  match (List.lookup fld py_props).join, (List.lookup fld rs_props).join with
  | some a, some b =>
    if a != "" && b != "" && a != b then
      { rep with type_mismatches := rep.type_mismatches ++ [mismatchEntry category name fld a b] }
    else rep
  | _, _ => rep

/-- The body of `compare_models`' loop over one `name` of the sorted union
of type names (lines 55-89). -/
def modelStep (category : String) (python_models rust_models : Models)
    (rep : DriftReport) (name : String) : DriftReport :=
  if !(containsKey rust_models name) then
    { rep with missing_in_rust := (dictInsert rep.missing_in_rust
        (category ++ "/" ++ name) "entire type") }
  else if !(containsKey python_models name) then
    { rep with missing_in_python := (dictInsert rep.missing_in_python
        (category ++ "/" ++ name) "entire type") }
  else
    let py_props := (List.lookup name python_models).getD []
    let rs_props := (List.lookup name rust_models).getD []
    let py_fields := setDiff (keys py_props) ignore_fields
    let rs_fields := setDiff (keys rs_props) ignore_fields
    let missing := setDiff py_fields rs_fields
    let extra := setDiff rs_fields py_fields
    let rep1 := if !missing.isEmpty then
        { rep with missing_in_rust := (dictInsert rep.missing_in_rust
            (category ++ "/" ++ name) ("fields: " ++ pyListRepr (sortedDedup missing))) }
      else rep
    let rep2 := if !extra.isEmpty then
        { rep1 with missing_in_python := (dictInsert rep1.missing_in_python
            (category ++ "/" ++ name) ("fields: " ++ pyListRepr (sortedDedup extra))) }
      else rep1
    (sortedDedup (setInter py_fields rs_fields)).foldl
      (fieldStep category name py_props rs_props) rep2

/-- `compare_models` (lines 51-89): fold of `modelStep` over the sorted
union of the two key sets. -/
def compare_models (category : String) (python_models rust_models : Models)
    (report : DriftReport) : DriftReport :=
  (sortedDedup (keys python_models ++ keys rust_models)).foldl
    (modelStep category python_models rust_models) report

/-- The body of `compare_enums`' loop over one `name` (lines 34-48). -/
def enumStep (python_enums rust_enums : Enums)
    (rep : DriftReport) (name : String) : DriftReport :=
  let py_variants := (List.lookup name python_enums).getD []
  let rs_variants := (List.lookup name rust_enums).getD []
  if !(containsKey rust_enums name) then
    { rep with missing_in_rust := dictInsert rep.missing_in_rust ("enum/" ++ name) "entire type" }
  else if !(containsKey python_enums name) then
    { rep with missing_in_python := (dictInsert rep.missing_in_python
        ("enum/" ++ name) "entire type") }
  else
    let missing := setDiff py_variants rs_variants
    let extra := setDiff rs_variants py_variants
    let rep1 := if !missing.isEmpty then
        { rep with missing_in_rust := (dictInsert rep.missing_in_rust
            ("enum/" ++ name) ("variants: " ++ pyListRepr (sortedDedup missing))) }
      else rep
    if !extra.isEmpty then
      { rep1 with missing_in_python := (dictInsert rep1.missing_in_python
          ("enum/" ++ name) ("variants: " ++ pyListRepr (sortedDedup extra))) }
    else rep1

/-- `compare_enums` (lines 30-48). -/
def compare_enums (python_enums rust_enums : Enums) (report : DriftReport) : DriftReport :=
  (sortedDedup (keys python_enums ++ keys rust_enums)).foldl
    (enumStep python_enums rust_enums) report

/-- One snapshot document: `python.get(cat, {})` for the two fixed model
categories and `python.get("enum", {})` (absent keys already defaulted to
empty tables, as `main` does). -/
structure Snapshot where
  bo : Models
  com : Models
  enum : Enums
deriving DecidableEq

/-- The comparison pipeline of `main` (lines 153-158): one shared report,
`compare_models` for the fixed categories `["bo", "com"]`, then
`compare_enums`.  First argument: the Python snapshot (side A of the
specification); second: the Rust snapshot (side B). -/
def compare (python rust : Snapshot) : DriftReport :=
  let report := emptyReport
  let report := compare_models "bo" python.bo rust.bo report
  let report := compare_models "com" python.com rust.com report
  compare_enums python.enum rust.enum report

/-- `generate_report` (lines 92-126). -/
def generate_report (report : DriftReport) : String :=
  let lines := ["# BO4E Drift Report", ""]
  if !report.has_drift then
    String.intercalate "\n" (lines ++ ["No drift detected - schemas are in sync!"])
  else
    let lines := lines ++ ["Drift detected between Python and Rust schemas\n"]
    let lines := if !report.missing_in_rust.isEmpty then
        lines ++ ["## Missing in Rust (exists in Python)\n"]
          ++ (sortedDedup (keys report.missing_in_rust)).map
              (fun k => "- **" ++ k ++ "**: " ++ (List.lookup k report.missing_in_rust).getD "")
          ++ [""]
      else lines
    let lines := if !report.missing_in_python.isEmpty then
        lines ++ ["## Missing in Python (exists in Rust)\n"]
          ++ (sortedDedup (keys report.missing_in_python)).map
              (fun k => "- **" ++ k ++ "**: " ++ (List.lookup k report.missing_in_python).getD "")
          ++ [""]
      else lines
    let lines := if !report.type_mismatches.isEmpty then
        lines ++ ["## Type Mismatches\n"]
          ++ (@List.insertionSort String (· ≤ ·) strDecLE report.type_mismatches).map
              (fun m => "- " ++ m)
          ++ [""]
      else lines
    let lines := lines ++ ["## Summary\n",
      "- Missing in Rust: " ++ toString report.missing_in_rust.length,
      "- Missing in Python: " ++ toString report.missing_in_python.length,
      "- Type mismatches: " ++ toString report.type_mismatches.length]
    String.intercalate "\n" lines

/-- `main` (lines 129-161), with file I/O and JSON parsing abstracted:
each input is `some` snapshot when the corresponding document is present
and parseable, `none` when it is missing.  Result: the process exit
status and the report printed to standard output (when one is printed;
the missing-document branches print only to standard error and exit 1). -/
def mainRun (python_doc rust_doc : Option Snapshot) : Nat × Option String :=
  match python_doc with
  | none => (1, none)
  | some python =>
    match rust_doc with
    | none => (1, none)
    | some rust => (0, some (generate_report (compare python rust)))

end BO4E

/-! ## Basic lemmas about the dictionary and set embedding -/

namespace BO4E

theorem contains_iff {l : List String} {x : String} : l.contains x = true ↔ x ∈ l := by simp

theorem mem_sortedDedup {l : List String} {x : String} : x ∈ sortedDedup l ↔ x ∈ l := by
  unfold sortedDedup
  rw [List.Perm.mem_iff (@List.perm_insertionSort String (· ≤ ·) strDecLE _)]
  exact List.mem_dedup

theorem nodup_sortedDedup (l : List String) : (sortedDedup l).Nodup :=
  ((@List.perm_insertionSort String (· ≤ ·) strDecLE _).symm).nodup l.nodup_dedup

theorem sorted_sortedDedup (l : List String) : (sortedDedup l).Sorted (· ≤ ·) :=
  @List.sorted_insertionSort String (· ≤ ·) strDecLE _ _ l.dedup

theorem sortedDedup_congr {l l' : List String} (h : ∀ x, x ∈ l ↔ x ∈ l') :
    sortedDedup l = sortedDedup l' :=
  List.eq_of_perm_of_sorted
    ((List.perm_ext_iff_of_nodup (nodup_sortedDedup l) (nodup_sortedDedup l')).2
      (fun x => by rw [mem_sortedDedup, mem_sortedDedup]; exact h x))
    (sorted_sortedDedup l) (sorted_sortedDedup l')

theorem mem_setDiff {a b : List String} {x : String} : x ∈ setDiff a b ↔ x ∈ a ∧ x ∉ b := by
  simp [setDiff]

theorem mem_setInter {a b : List String} {x : String} : x ∈ setInter a b ↔ x ∈ a ∧ x ∈ b := by
  simp [setInter]

theorem setDiff_self (a : List String) : setDiff a a = [] := by
  unfold setDiff
  rw [List.filter_eq_nil_iff]
  intro x hx
  simpa using hx

theorem isEmpty_congr {l l' : List String} (h : ∀ x, x ∈ l ↔ x ∈ l') :
    l.isEmpty = l'.isEmpty := by
  cases l with
  | nil =>
    cases l' with
    | nil => rfl
    | cons y ys => exact absurd ((h y).2 (List.mem_cons_self y ys)) (List.not_mem_nil y)
  | cons x xs =>
    cases l' with
    | nil => exact absurd ((h x).1 (List.mem_cons_self x xs)) (List.not_mem_nil x)
    | cons y ys => rfl

theorem keys_cons {α : Type} (p : String × α) (d : Dict α) : keys (p :: d) = p.1 :: keys d := rfl

theorem keys_append {α : Type} (d e : Dict α) : keys (d ++ e) = keys d ++ keys e := by
  simp [keys]

theorem containsKey_iff {α : Type} {d : Dict α} {k : String} :
    containsKey d k = true ↔ k ∈ keys d := by
  simp [containsKey]

theorem lookup_eq_none {α : Type} {d : Dict α} {k : String} (h : k ∉ keys d) :
    List.lookup k d = none := by
  induction d with
  | nil => rfl
  | cons p d ih =>
    rw [keys_cons, List.mem_cons] at h
    push_neg at h
    have hne : (k == p.1) = false := beq_eq_false_iff_ne.2 h.1
    obtain ⟨k1, v1⟩ := p
    simp only [List.lookup_cons, hne]
    exact ih h.2

theorem lookup_isSome_of_mem {α : Type} {d : Dict α} {k : String} (h : k ∈ keys d) :
    (List.lookup k d).isSome = true := by
  induction d with
  | nil => simp [keys] at h
  | cons p d ih =>
    obtain ⟨k1, v1⟩ := p
    rw [keys_cons, List.mem_cons] at h
    by_cases hk : k = k1
    · simp [List.lookup_cons, hk]
    · have hne : (k == k1) = false := beq_eq_false_iff_ne.2 hk
      simp only [List.lookup_cons, hne]
      exact ih (h.resolve_left hk)

theorem lookup_append_of_none {α : Type} {d : Dict α} {k : String} (e : Dict α)
    (h : List.lookup k d = none) : List.lookup k (d ++ e) = List.lookup k e := by
  induction d with
  | nil => rfl
  | cons p d ih =>
    obtain ⟨k1, v1⟩ := p
    by_cases hk : k = k1
    · rw [List.lookup_cons] at h
      simp [hk] at h
    · have hne : (k == k1) = false := by simp [hk]
      rw [List.cons_append]
      rw [List.lookup_cons] at h ⊢
      simp only [hne] at h ⊢
      exact ih h

theorem lookup_append_of_some {α : Type} {d : Dict α} {k : String} {v : α} (e : Dict α)
    (h : List.lookup k d = some v) : List.lookup k (d ++ e) = some v := by
  induction d with
  | nil => simp at h
  | cons p d ih =>
    obtain ⟨k1, v1⟩ := p
    rw [List.cons_append]
    rw [List.lookup_cons] at h ⊢
    by_cases hk : k = k1
    · have hee : (k == k1) = true := by simp [hk]
      simp only [hee] at h ⊢
      exact h
    · have hne : (k == k1) = false := by simp [hk]
      simp only [hne] at h ⊢
      exact ih h

theorem keys_mapUpdate {α : Type} (d : Dict α) (k2 : String) (v : α) :
    keys (d.map (fun p => if p.1 == k2 then (k2, v) else p)) = keys d := by
  induction d with
  | nil => rfl
  | cons p d ih =>
    rw [List.map_cons, keys_cons, keys_cons, ih]
    congr 1
    by_cases h1 : p.1 = k2
    · simp [h1]
    · simp [h1]

theorem lookup_mapUpdate_self {α : Type} {d : Dict α} {k : String} (v : α) (hmem : k ∈ keys d) :
    List.lookup k (d.map (fun p => if p.1 == k then (k, v) else p)) = some v := by
  induction d with
  | nil => simp [keys] at hmem
  | cons p d ih =>
    obtain ⟨k1, v1⟩ := p
    rw [List.map_cons]
    by_cases hk : k1 = k
    · simp only [hk]
      simp [List.lookup_cons]
    · have h1 : ((k1, v1).1 == k) = false := by simp [hk]
      simp only [h1]
      have hne : (k == k1) = false := by
        simp only [beq_eq_false_iff_ne, ne_eq]
        exact fun he => hk he.symm
      rw [if_neg (by simp)]
      rw [List.lookup_cons]
      simp only [hne]
      rw [keys_cons, List.mem_cons] at hmem
      exact ih (hmem.resolve_left (fun he => hk he.symm))

theorem lookup_mapUpdate_ne {α : Type} (d : Dict α) {k k2 : String} (v : α) (h : k ≠ k2) :
    List.lookup k (d.map (fun p => if p.1 == k2 then (k2, v) else p)) = List.lookup k d := by
  induction d with
  | nil => rfl
  | cons p d ih =>
    obtain ⟨k1, v1⟩ := p
    rw [List.map_cons]
    by_cases h1 : k1 = k2
    · have he : ((k1, v1).1 == k2) = true := by simp [h1]
      have hne : (k == k2) = false := by simp [h]
      have hne1 : (k == k1) = false := by simp [h1 ▸ h]
      simp only [he, if_true]
      rw [List.lookup_cons, List.lookup_cons]
      simp only [hne, hne1]
      exact ih
    · have he : ((k1, v1).1 == k2) = false := by simp [h1]
      simp only [he]
      rw [if_neg (by simp)]
      rw [List.lookup_cons, List.lookup_cons]
      by_cases hkk : k = k1
      · have hee : (k == k1) = true := by simp [hkk]
        simp only [hee]
      · have hee : (k == k1) = false := by simp [hkk]
        simp only [hee]
        exact ih

theorem lookup_dictInsert_self {α : Type} (d : Dict α) (k : String) (v : α) :
    List.lookup k (dictInsert d k v) = some v := by
  unfold dictInsert
  cases hc : containsKey d k with
  | true =>
    rw [if_pos rfl]
    exact lookup_mapUpdate_self v (containsKey_iff.1 hc)
  | false =>
    rw [if_neg (by simp)]
    have hnm : k ∉ keys d := fun hm => by simp [containsKey_iff.2 hm] at hc
    rw [lookup_append_of_none _ (lookup_eq_none hnm)]
    rw [List.lookup_cons]
    simp

theorem lookup_dictInsert_ne {α : Type} (d : Dict α) {k k2 : String} (v : α) (h : k ≠ k2) :
    List.lookup k (dictInsert d k2 v) = List.lookup k d := by
  unfold dictInsert
  cases hc : containsKey d k2 with
  | true =>
    rw [if_pos rfl]
    exact lookup_mapUpdate_ne d v h
  | false =>
    rw [if_neg (by simp)]
    cases hl : List.lookup k d with
    | some v2 => exact lookup_append_of_some _ hl
    | none =>
      rw [lookup_append_of_none _ hl, List.lookup_cons]
      rw [beq_eq_false_iff_ne.2 h]
      rfl

theorem keys_dictInsert {α : Type} (d : Dict α) (k2 : String) (v : α) :
    keys (dictInsert d k2 v) = if containsKey d k2 then keys d else keys d ++ [k2] := by
  unfold dictInsert
  cases hc : containsKey d k2 with
  | true =>
    rw [if_pos rfl, if_pos rfl]
    exact keys_mapUpdate d k2 v
  | false =>
    rw [if_neg (by simp), if_neg (by simp)]
    rw [keys_append]
    rfl

theorem mem_keys_dictInsert {α : Type} {d : Dict α} {k k2 : String} {v : α} :
    k ∈ keys (dictInsert d k2 v) ↔ k ∈ keys d ∨ k = k2 := by
  rw [keys_dictInsert]
  cases hc : containsKey d k2 with
  | true =>
    rw [if_pos rfl]
    constructor
    · exact Or.inl
    · rintro (hm | rfl)
      · exact hm
      · exact containsKey_iff.1 hc
  | false =>
    rw [if_neg (by simp)]
    simp
theorem foldl_fixed {α β : Type} {f : β → α → β} {l : List α}
    (hb : ∀ b a, a ∈ l → f b a = b) (b : β) : l.foldl f b = b := by
  induction l generalizing b with
  | nil => rfl
  | cons x xs ih =>
    rw [List.foldl_cons, hb b x (List.mem_cons_self x xs)]
    exact ih (fun b a ha => hb b a (List.mem_cons_of_mem x ha)) b

theorem foldl_congr_mem {α β : Type} {f g : β → α → β} {l : List α}
    (h : ∀ b a, a ∈ l → f b a = g b a) (b : β) : l.foldl f b = l.foldl g b := by
  induction l generalizing b with
  | nil => rfl
  | cons x xs ih =>
    rw [List.foldl_cons, List.foldl_cons, h b x (List.mem_cons_self x xs)]
    exact ih (fun b a ha => h b a (List.mem_cons_of_mem x ha)) _

end BO4E

/-! ## C5: compare(A, A) is the empty report -/

namespace BO4E

theorem fieldStep_self (category name : String) (P : Props) (rep : DriftReport) (fld : String) :
    fieldStep category name P P rep fld = rep := by
  unfold fieldStep
  cases h : (List.lookup fld P).join with
  | none => rfl
  | some a => simp

theorem modelStep_self (category : String) (M : Models) (rep : DriftReport) {name : String}
    (h : name ∈ keys M) : modelStep category M M rep name = rep := by
  unfold modelStep
  rw [if_neg (by simp [containsKey_iff.2 h])]
  rw [if_neg (by simp [containsKey_iff.2 h])]
  simp only [setDiff_self, List.isEmpty_nil, Bool.not_true, Bool.false_eq_true, if_false]
  exact foldl_fixed (fun b a _ => fieldStep_self _ _ _ b a) rep

theorem enumStep_self (E : Enums) (rep : DriftReport) {name : String}
    (h : name ∈ keys E) : enumStep E E rep name = rep := by
  unfold enumStep
  rw [if_neg (by simp [containsKey_iff.2 h])]
  rw [if_neg (by simp [containsKey_iff.2 h])]
  simp [setDiff_self]

theorem compare_models_self (category : String) (M : Models) (rep : DriftReport) :
    compare_models category M M rep = rep := by
  unfold compare_models
  refine foldl_fixed (fun b a ha => ?_) rep
  rw [mem_sortedDedup, List.mem_append] at ha
  exact modelStep_self category M b (ha.elim id id)

theorem compare_enums_self (E : Enums) (rep : DriftReport) :
    compare_enums E E rep = rep := by
  unfold compare_enums
  refine foldl_fixed (fun b a ha => ?_) rep
  rw [mem_sortedDedup, List.mem_append] at ha
  exact enumStep_self E b (ha.elim id id)

/-- C5: for every snapshot A, `compare(A, A)` yields a report whose
`missing_in_rust`, `missing_in_python` and `type_mismatches` collections
are all empty, so `has_drift` is `false`.  (Proved for every snapshot,
well-formed or not.) -/
theorem compare_self_empty (a : Snapshot) :
    compare a a = emptyReport ∧ (compare a a).has_drift = false := by
  have h : compare a a = emptyReport := by
    show compare_enums a.enum a.enum
      (compare_models "com" a.com a.com (compare_models "bo" a.bo a.bo emptyReport)) = emptyReport
    rw [compare_models_self, compare_models_self, compare_enums_self]
  exact ⟨h, by rw [h]; rfl⟩

end BO4E

/-! ## C7: exit status and output of the success path -/

namespace BO4E

/-- C7: whenever both snapshot documents are present and parseable, the
program prints the rendered report to standard output and terminates with
exit status zero, whether or not the comparison found drift; the exit
status never encodes drift. -/
theorem mainRun_success (a b : Snapshot) :
    mainRun (some a) (some b) = (0, some (generate_report (compare a b))) := rfl

/-! ## C9: the no-drift rendering and the has_drift predicate -/

/-- C9 counterexample: for the empty report `has_drift` is false, yet the
rendered output is not the single no-drift line: the fixed report header
precedes it. -/
theorem generate_report_header_cx :
    emptyReport.has_drift = false ∧
      generate_report emptyReport ≠ "No drift detected - schemas are in sync!" ∧
      generate_report emptyReport =
        "# BO4E Drift Report\n\nNo drift detected - schemas are in sync!" := by
  refine ⟨rfl, ?_, by decide⟩
  decide

/-- C9 (amended): when `has_drift` is false the rendered report is the fixed
constant string consisting of the report header followed by the no-drift
line; and `has_drift` is true precisely when one of the three findings
collections is non-empty. -/
theorem generate_report_no_drift (r : DriftReport) :
    (r.has_drift = false →
      generate_report r = "# BO4E Drift Report\n\nNo drift detected - schemas are in sync!") ∧
    (r.has_drift = true ↔
      (r.missing_in_rust ≠ [] ∨ r.missing_in_python ≠ [] ∨ r.type_mismatches ≠ [])) := by
  constructor
  · intro h
    unfold generate_report
    rw [h]
    simp only [Bool.not_false, if_true]
    rfl
  · unfold DriftReport.has_drift
    simp [List.isEmpty_iff]
    tauto

/-- Witness for `generate_report_no_drift` at the empty report. -/
theorem generate_report_no_drift_witness :
    emptyReport.has_drift = false ∧
      generate_report emptyReport =
        "# BO4E Drift Report\n\nNo drift detected - schemas are in sync!" :=
  ⟨rfl, (generate_report_no_drift emptyReport).1 rfl⟩

end BO4E

/-! ## C1: entire-type recording for one-sided names -/

namespace BO4E

theorem string_append_left_cancel {s t u : String} (h : s ++ t = s ++ u) : t = u := by
  have h2 : (s ++ t).data = (s ++ u).data := by rw [h]
  simp [String.data_append] at h2
  cases t
  cases u
  exact congrArg String.mk h2

/-- Qualified names built from the same prefix are injective in the name. -/
theorem key_inj {pre n m : String} (h : pre ++ n = pre ++ m) : n = m :=
  string_append_left_cancel h

theorem fieldStep_keeps_missing (category name : String) (P R : Props)
    (rep : DriftReport) (fld : String) :
    (fieldStep category name P R rep fld).missing_in_rust = rep.missing_in_rust ∧
    (fieldStep category name P R rep fld).missing_in_python = rep.missing_in_python := by
  unfold fieldStep
  cases hP : (List.lookup fld P).join with
  | none => exact ⟨rfl, rfl⟩
  | some a =>
    cases hR : (List.lookup fld R).join with
    | none => exact ⟨rfl, rfl⟩
    | some b =>
      dsimp only
      split
      · exact ⟨rfl, rfl⟩
      · exact ⟨rfl, rfl⟩

theorem foldl_fieldStep_keeps_missing (category name : String) (P R : Props)
    (l : List String) (rep : DriftReport) :
    (l.foldl (fieldStep category name P R) rep).missing_in_rust = rep.missing_in_rust ∧
    (l.foldl (fieldStep category name P R) rep).missing_in_python = rep.missing_in_python := by
  induction l generalizing rep with
  | nil => exact ⟨rfl, rfl⟩
  | cons x xs ih =>
    rw [List.foldl_cons]
    have h1 := fieldStep_keeps_missing category name P R rep x
    have h2 := ih (fieldStep category name P R rep x)
    exact ⟨h2.1.trans h1.1, h2.2.trans h1.2⟩

theorem modelStep_absent_rust (category : String) (pyM rsM : Models) (rep : DriftReport)
    {name : String} (h : name ∉ keys rsM) :
    modelStep category pyM rsM rep name =
      { rep with missing_in_rust :=
          dictInsert rep.missing_in_rust (category ++ "/" ++ name) "entire type" } := by
  unfold modelStep
  rw [if_pos (by simp [containsKey, h])]

theorem modelStep_only_rust (category : String) (pyM rsM : Models) (rep : DriftReport)
    {name : String} (hin : name ∈ keys rsM) (hout : name ∉ keys pyM) :
    modelStep category pyM rsM rep name =
      { rep with missing_in_python :=
          dictInsert rep.missing_in_python (category ++ "/" ++ name) "entire type" } := by
  unfold modelStep
  rw [if_neg (by simp [containsKey, hin])]
  rw [if_pos (by simp [containsKey, hout])]

theorem enumStep_absent_rust (pyE rsE : Enums) (rep : DriftReport)
    {name : String} (h : name ∉ keys rsE) :
    enumStep pyE rsE rep name =
      { rep with missing_in_rust :=
          dictInsert rep.missing_in_rust ("enum/" ++ name) "entire type" } := by
  unfold enumStep
  rw [if_pos (by simp [containsKey, h])]

theorem enumStep_only_rust (pyE rsE : Enums) (rep : DriftReport)
    {name : String} (hin : name ∈ keys rsE) (hout : name ∉ keys pyE) :
    enumStep pyE rsE rep name =
      { rep with missing_in_python :=
          dictInsert rep.missing_in_python ("enum/" ++ name) "entire type" } := by
  unfold enumStep
  rw [if_neg (by simp [containsKey, hin])]
  rw [if_pos (by simp [containsKey, hout])]

theorem modelStep_lookup_preserved (category : String) (pyM rsM : Models)
    {name n : String} (hne : n ≠ name) (rep : DriftReport) :
    List.lookup (category ++ "/" ++ name) (modelStep category pyM rsM rep n).missing_in_rust =
      List.lookup (category ++ "/" ++ name) rep.missing_in_rust ∧
    List.lookup (category ++ "/" ++ name) (modelStep category pyM rsM rep n).missing_in_python =
      List.lookup (category ++ "/" ++ name) rep.missing_in_python := by
  have hkey : category ++ "/" ++ name ≠ category ++ "/" ++ n :=
    fun h => hne (key_inj h).symm
  unfold modelStep
  split
  · exact ⟨lookup_dictInsert_ne _ _ hkey, rfl⟩
  split
  · exact ⟨rfl, lookup_dictInsert_ne _ _ hkey⟩
  dsimp only
  constructor
  · rw [(foldl_fieldStep_keeps_missing _ _ _ _ _ _).1]
    split
    · split
      · exact lookup_dictInsert_ne _ _ hkey
      · rfl
    · split
      · exact lookup_dictInsert_ne _ _ hkey
      · rfl
  · rw [(foldl_fieldStep_keeps_missing _ _ _ _ _ _).2]
    split
    · split
      · exact lookup_dictInsert_ne _ _ hkey
      · exact lookup_dictInsert_ne _ _ hkey
    · split
      · rfl
      · rfl

theorem enumStep_lookup_preserved (pyE rsE : Enums)
    {name n : String} (hne : n ≠ name) (rep : DriftReport) :
    List.lookup ("enum/" ++ name) (enumStep pyE rsE rep n).missing_in_rust =
      List.lookup ("enum/" ++ name) rep.missing_in_rust ∧
    List.lookup ("enum/" ++ name) (enumStep pyE rsE rep n).missing_in_python =
      List.lookup ("enum/" ++ name) rep.missing_in_python := by
  have hkey : "enum/" ++ name ≠ "enum/" ++ n := fun h => hne (key_inj h).symm
  unfold enumStep
  split
  · exact ⟨lookup_dictInsert_ne _ _ hkey, rfl⟩
  split
  · exact ⟨rfl, lookup_dictInsert_ne _ _ hkey⟩
  dsimp only
  constructor
  · split
    · split
      · exact lookup_dictInsert_ne _ _ hkey
      · rfl
    · split
      · exact lookup_dictInsert_ne _ _ hkey
      · rfl
  · split
    · split
      · exact lookup_dictInsert_ne _ _ hkey
      · exact lookup_dictInsert_ne _ _ hkey
    · split
      · rfl
      · rfl

theorem foldl_lookup_preserved (f : DriftReport → String → DriftReport) (k : String)
    (l : List String)
    (hf : ∀ rep b, b ∈ l →
      List.lookup k (f rep b).missing_in_rust = List.lookup k rep.missing_in_rust ∧
      List.lookup k (f rep b).missing_in_python = List.lookup k rep.missing_in_python)
    (rep : DriftReport) :
    List.lookup k (l.foldl f rep).missing_in_rust = List.lookup k rep.missing_in_rust ∧
    List.lookup k (l.foldl f rep).missing_in_python = List.lookup k rep.missing_in_python := by
  induction l generalizing rep with
  | nil => exact ⟨rfl, rfl⟩
  | cons x xs ih =>
    rw [List.foldl_cons]
    have h1 := hf rep x (List.mem_cons_self x xs)
    have h2 := ih (fun r b hb => hf r b (List.mem_cons_of_mem x hb)) (f rep x)
    exact ⟨h2.1.trans h1.1, h2.2.trans h1.2⟩

end BO4E

namespace BO4E

theorem nodup_split_not_mem {l₁ l₂ : List String} {name : String}
    (hnd : (l₁ ++ name :: l₂).Nodup) : name ∉ l₁ ∧ name ∉ l₂ := by
  rw [List.nodup_append] at hnd
  exact ⟨fun h => hnd.2.2 h (List.mem_cons_self _ _), (List.nodup_cons.1 hnd.2.1).1⟩

theorem compare_models_only_left (category : String) (pyM rsM : Models) {name : String}
    (hpy : name ∈ keys pyM) (hrs : name ∉ keys rsM) :
    List.lookup (category ++ "/" ++ name)
        (compare_models category pyM rsM emptyReport).missing_in_rust = some "entire type" ∧
    List.lookup (category ++ "/" ++ name)
        (compare_models category pyM rsM emptyReport).missing_in_python = none := by
  unfold compare_models
  have hmem : name ∈ sortedDedup (keys pyM ++ keys rsM) := by
    rw [mem_sortedDedup, List.mem_append]
    exact Or.inl hpy
  obtain ⟨l₁, l₂, hsplit⟩ := List.append_of_mem hmem
  have hnd := nodup_split_not_mem (hsplit ▸ nodup_sortedDedup (keys pyM ++ keys rsM))
  rw [hsplit, List.foldl_append, List.foldl_cons]
  have h1 := foldl_lookup_preserved (modelStep category pyM rsM) (category ++ "/" ++ name) l₁
    (fun rep b hb => modelStep_lookup_preserved category pyM rsM
      (ne_of_mem_of_not_mem hb hnd.1) rep) emptyReport
  have hstep := modelStep_absent_rust category pyM rsM
    (l₁.foldl (modelStep category pyM rsM) emptyReport) hrs
  have h2 := foldl_lookup_preserved (modelStep category pyM rsM) (category ++ "/" ++ name) l₂
    (fun rep b hb => modelStep_lookup_preserved category pyM rsM
      (ne_of_mem_of_not_mem hb hnd.2) rep)
    (modelStep category pyM rsM (l₁.foldl (modelStep category pyM rsM) emptyReport) name)
  constructor
  · rw [h2.1, hstep]
    exact lookup_dictInsert_self _ _ _
  · rw [h2.2, hstep]
    exact h1.2

theorem compare_models_only_right (category : String) (pyM rsM : Models) {name : String}
    (hpy : name ∉ keys pyM) (hrs : name ∈ keys rsM) :
    List.lookup (category ++ "/" ++ name)
        (compare_models category pyM rsM emptyReport).missing_in_python = some "entire type" ∧
    List.lookup (category ++ "/" ++ name)
        (compare_models category pyM rsM emptyReport).missing_in_rust = none := by
  unfold compare_models
  have hmem : name ∈ sortedDedup (keys pyM ++ keys rsM) := by
    rw [mem_sortedDedup, List.mem_append]
    exact Or.inr hrs
  obtain ⟨l₁, l₂, hsplit⟩ := List.append_of_mem hmem
  have hnd := nodup_split_not_mem (hsplit ▸ nodup_sortedDedup (keys pyM ++ keys rsM))
  rw [hsplit, List.foldl_append, List.foldl_cons]
  have h1 := foldl_lookup_preserved (modelStep category pyM rsM) (category ++ "/" ++ name) l₁
    (fun rep b hb => modelStep_lookup_preserved category pyM rsM
      (ne_of_mem_of_not_mem hb hnd.1) rep) emptyReport
  have hstep := modelStep_only_rust category pyM rsM
    (l₁.foldl (modelStep category pyM rsM) emptyReport) hrs hpy
  have h2 := foldl_lookup_preserved (modelStep category pyM rsM) (category ++ "/" ++ name) l₂
    (fun rep b hb => modelStep_lookup_preserved category pyM rsM
      (ne_of_mem_of_not_mem hb hnd.2) rep)
    (modelStep category pyM rsM (l₁.foldl (modelStep category pyM rsM) emptyReport) name)
  constructor
  · rw [h2.2, hstep]
    exact lookup_dictInsert_self _ _ _
  · rw [h2.1, hstep]
    exact h1.1

theorem compare_enums_only_left (pyE rsE : Enums) {name : String}
    (hpy : name ∈ keys pyE) (hrs : name ∉ keys rsE) :
    List.lookup ("enum/" ++ name)
        (compare_enums pyE rsE emptyReport).missing_in_rust = some "entire type" ∧
    List.lookup ("enum/" ++ name)
        (compare_enums pyE rsE emptyReport).missing_in_python = none := by
  unfold compare_enums
  have hmem : name ∈ sortedDedup (keys pyE ++ keys rsE) := by
    rw [mem_sortedDedup, List.mem_append]
    exact Or.inl hpy
  obtain ⟨l₁, l₂, hsplit⟩ := List.append_of_mem hmem
  have hnd := nodup_split_not_mem (hsplit ▸ nodup_sortedDedup (keys pyE ++ keys rsE))
  rw [hsplit, List.foldl_append, List.foldl_cons]
  have h1 := foldl_lookup_preserved (enumStep pyE rsE) ("enum/" ++ name) l₁
    (fun rep b hb => enumStep_lookup_preserved pyE rsE (ne_of_mem_of_not_mem hb hnd.1) rep)
    emptyReport
  have hstep := enumStep_absent_rust pyE rsE (l₁.foldl (enumStep pyE rsE) emptyReport) hrs
  have h2 := foldl_lookup_preserved (enumStep pyE rsE) ("enum/" ++ name) l₂
    (fun rep b hb => enumStep_lookup_preserved pyE rsE (ne_of_mem_of_not_mem hb hnd.2) rep)
    (enumStep pyE rsE (l₁.foldl (enumStep pyE rsE) emptyReport) name)
  constructor
  · rw [h2.1, hstep]
    exact lookup_dictInsert_self _ _ _
  · rw [h2.2, hstep]
    exact h1.2

theorem compare_enums_only_right (pyE rsE : Enums) {name : String}
    (hpy : name ∉ keys pyE) (hrs : name ∈ keys rsE) :
    List.lookup ("enum/" ++ name)
        (compare_enums pyE rsE emptyReport).missing_in_python = some "entire type" ∧
    List.lookup ("enum/" ++ name)
        (compare_enums pyE rsE emptyReport).missing_in_rust = none := by
  unfold compare_enums
  have hmem : name ∈ sortedDedup (keys pyE ++ keys rsE) := by
    rw [mem_sortedDedup, List.mem_append]
    exact Or.inr hrs
  obtain ⟨l₁, l₂, hsplit⟩ := List.append_of_mem hmem
  have hnd := nodup_split_not_mem (hsplit ▸ nodup_sortedDedup (keys pyE ++ keys rsE))
  rw [hsplit, List.foldl_append, List.foldl_cons]
  have h1 := foldl_lookup_preserved (enumStep pyE rsE) ("enum/" ++ name) l₁
    (fun rep b hb => enumStep_lookup_preserved pyE rsE (ne_of_mem_of_not_mem hb hnd.1) rep)
    emptyReport
  have hstep := enumStep_only_rust pyE rsE (l₁.foldl (enumStep pyE rsE) emptyReport) hrs hpy
  have h2 := foldl_lookup_preserved (enumStep pyE rsE) ("enum/" ++ name) l₂
    (fun rep b hb => enumStep_lookup_preserved pyE rsE (ne_of_mem_of_not_mem hb hnd.2) rep)
    (enumStep pyE rsE (l₁.foldl (enumStep pyE rsE) emptyReport) name)
  constructor
  · rw [h2.2, hstep]
    exact lookup_dictInsert_self _ _ _
  · rw [h2.1, hstep]
    exact h1.1

/-- C1 counterexample: the enum name "X" is present only in snapshot B (the
Rust side, second argument), but it is recorded under `missing_in_python`
(missingInA), not under `missing_in_rust` (missingInB) as the claim says;
likewise a type name "T" present only in B lands in `missing_in_python`. -/
theorem one_sided_direction_cx :
    (compare_enums [] [("X", [])] emptyReport).missing_in_rust = [] ∧
    (compare_enums [] [("X", [])] emptyReport).missing_in_python = [("enum/X", "entire type")] ∧
    (compare_models "bo" [] [("T", [])] emptyReport).missing_in_rust = [] ∧
    (compare_models "bo" [] [("T", [])] emptyReport).missing_in_python =
      [("bo/T", "entire type")] := by
  refine ⟨?_, ?_, ?_, ?_⟩ <;> rfl

/-- C1 (amended): a name present only in snapshot A (the Python side) is
recorded under `missing_in_rust` (missingInB) with description
"entire type" and gets no `missing_in_python` entry; symmetrically, a name
present only in snapshot B is recorded under `missing_in_python`
(missingInA) with "entire type" and gets no `missing_in_rust` entry.
Field-level comparison is skipped for such a name: its whole loop
iteration only performs the single dictionary assignment. -/
theorem one_sided_entire_type (category name : String) (pyE rsE : Enums)
    (pyM rsM : Models) (rep : DriftReport)
    (hMpy : name ∈ keys pyM) (hMrs : name ∉ keys rsM)
    (hEpy : name ∈ keys pyE) (hErs : name ∉ keys rsE) :
    List.lookup (category ++ "/" ++ name)
        (compare_models category pyM rsM emptyReport).missing_in_rust = some "entire type" ∧
    List.lookup (category ++ "/" ++ name)
        (compare_models category pyM rsM emptyReport).missing_in_python = none ∧
    List.lookup (category ++ "/" ++ name)
        (compare_models category rsM pyM emptyReport).missing_in_python = some "entire type" ∧
    List.lookup (category ++ "/" ++ name)
        (compare_models category rsM pyM emptyReport).missing_in_rust = none ∧
    List.lookup ("enum/" ++ name)
        (compare_enums pyE rsE emptyReport).missing_in_rust = some "entire type" ∧
    List.lookup ("enum/" ++ name)
        (compare_enums pyE rsE emptyReport).missing_in_python = none ∧
    List.lookup ("enum/" ++ name)
        (compare_enums rsE pyE emptyReport).missing_in_python = some "entire type" ∧
    List.lookup ("enum/" ++ name)
        (compare_enums rsE pyE emptyReport).missing_in_rust = none ∧
    modelStep category pyM rsM rep name =
      { rep with missing_in_rust :=
          dictInsert rep.missing_in_rust (category ++ "/" ++ name) "entire type" } ∧
    modelStep category rsM pyM rep name =
      { rep with missing_in_python :=
          dictInsert rep.missing_in_python (category ++ "/" ++ name) "entire type" } := by
  have h1 := compare_models_only_left category pyM rsM hMpy hMrs
  have h2 := compare_models_only_right category rsM pyM hMrs hMpy
  have h3 := compare_enums_only_left pyE rsE hEpy hErs
  have h4 := compare_enums_only_right rsE pyE hErs hEpy
  exact ⟨h1.1, h1.2, h2.1, h2.2, h3.1, h3.2, h4.1, h4.2,
    modelStep_absent_rust category pyM rsM rep hMrs,
    modelStep_only_rust category rsM pyM rep hMpy hMrs⟩

/-- Witness for `one_sided_entire_type` at concrete snapshots. -/
theorem one_sided_entire_type_witness :
    ("T" ∈ keys [("T", ([] : Props))] ∧ "T" ∉ keys ([] : Models) ∧
      "T" ∈ keys [("T", ["V"])] ∧ "T" ∉ keys ([] : Enums)) ∧
    (List.lookup ("bo" ++ "/" ++ "T")
        (compare_models "bo" [("T", [])] [] emptyReport).missing_in_rust = some "entire type" ∧
      List.lookup ("enum/" ++ "T")
        (compare_enums [] [("T", ["V"])] emptyReport).missing_in_python = some "entire type") := by
  have h := one_sided_entire_type "bo" "T" [("T", ["V"])] [] [("T", [])] [] emptyReport
    (by decide) (by decide) (by decide) (by decide)
  exact ⟨⟨by decide, by decide, by decide, by decide⟩, h.1, h.2.2.2.2.2.2.1⟩

end BO4E

/-! ## C3 and C10: characterization of the type-mismatch entries -/

namespace BO4E

/-- The optional type-mismatch entry contributed by one field of a type
present on both sides (the body of the loop at lines 83-89). -/
def fieldMismatch (category name : String) (py_props rs_props : Props)
    (fld : String) : Option String :=
  match (List.lookup fld py_props).join, (List.lookup fld rs_props).join with
  | some a, some b =>
    if a != "" && b != "" && a != b then some (mismatchEntry category name fld a b) else none
  | _, _ => none

/-- The type-mismatch entries contributed by one name of the union loop of
`compare_models`. -/
def tmBlock (category : String) (pyM rsM : Models) (name : String) : List String :=
  if !(containsKey rsM name) then []
  else if !(containsKey pyM name) then []
  else
    let py_props := (List.lookup name pyM).getD []
    let rs_props := (List.lookup name rsM).getD []
    let py_fields := setDiff (keys py_props) ignore_fields
    let rs_fields := setDiff (keys rs_props) ignore_fields
    (sortedDedup (setInter py_fields rs_fields)).filterMap
      (fieldMismatch category name py_props rs_props)

theorem fieldStep_tm (category name : String) (P R : Props) (rep : DriftReport) (fld : String) :
    (fieldStep category name P R rep fld).type_mismatches =
      rep.type_mismatches ++ (fieldMismatch category name P R fld).toList := by
  unfold fieldStep fieldMismatch
  cases hP : (List.lookup fld P).join with
  | none =>
    cases hR : (List.lookup fld R).join with
    | none => simp
    | some b => simp
  | some a =>
    cases hR : (List.lookup fld R).join with
    | none => simp
    | some b =>
      dsimp only
      split
      · simp
      · simp

theorem foldl_fieldStep_tm (category name : String) (P R : Props)
    (l : List String) (rep : DriftReport) :
    (l.foldl (fieldStep category name P R) rep).type_mismatches =
      rep.type_mismatches ++ l.filterMap (fieldMismatch category name P R) := by
  induction l generalizing rep with
  | nil => simp
  | cons x xs ih =>
    rw [List.foldl_cons, ih, fieldStep_tm]
    cases h : fieldMismatch category name P R x <;>
      simp [List.filterMap_cons, h]

theorem modelStep_tm (category : String) (pyM rsM : Models) (rep : DriftReport) (name : String) :
    (modelStep category pyM rsM rep name).type_mismatches =
      rep.type_mismatches ++ tmBlock category pyM rsM name := by
  unfold modelStep tmBlock
  by_cases hc1 : (!(containsKey rsM name)) = true
  · rw [if_pos hc1, if_pos hc1]
    simp
  · rw [if_neg hc1, if_neg hc1]
    by_cases hc2 : (!(containsKey pyM name)) = true
    · rw [if_pos hc2, if_pos hc2]
      simp
    · rw [if_neg hc2, if_neg hc2]
      dsimp only
      rw [foldl_fieldStep_tm]
      congr 1
      split
      · split
        · rfl
        · rfl
      · split
        · rfl
        · rfl

theorem foldl_tm_append (f : DriftReport → String → DriftReport) (B : String → List String)
    (hf : ∀ rep b, (f rep b).type_mismatches = rep.type_mismatches ++ B b) :
    ∀ (l : List String) (rep : DriftReport),
      (l.foldl f rep).type_mismatches = rep.type_mismatches ++ l.flatMap B := by
  intro l
  induction l with
  | nil => intro rep; simp
  | cons x xs ih =>
    intro rep
    rw [List.foldl_cons, ih, hf, List.flatMap_cons, List.append_assoc]

theorem compare_models_tm (category : String) (pyM rsM : Models) (rep : DriftReport) :
    (compare_models category pyM rsM rep).type_mismatches =
      rep.type_mismatches ++
        (sortedDedup (keys pyM ++ keys rsM)).flatMap (tmBlock category pyM rsM) :=
  foldl_tm_append _ _ (fun r b => modelStep_tm category pyM rsM r b) _ _

/-- C3 counterexample: both sides declare a non-absent type tag for field
"f" of type "T" (the Python side's tag is the empty string, the Rust side's
is "int"), the tags are unequal, and yet no type-mismatch entry is
appended, because the code tests the tags for truthiness, not presence. -/
theorem nonabsent_unequal_no_entry_cx :
    (List.lookup "f" ([("f", some "")] : Props)).join = some "" ∧
    (List.lookup "f" ([("f", some "int")] : Props)).join = some "int" ∧
    ("" : String) ≠ "int" ∧
    (compare_models "bo" [("T", [("f", some "")])] [("T", [("f", some "int")])]
        emptyReport).type_mismatches = [] := by
  exact ⟨rfl, rfl, by decide, rfl⟩

/-- C3 (amended): for types present in both snapshots, a type-mismatch
entry is appended for a field of the intersection of the reduced field
sets precisely when both sides' type tags are truthy - present and
non-empty - and unequal as plain strings; an absent (or falsy) tag on
either side produces nothing. -/
theorem type_mismatch_characterization (category : String) (pyM rsM : Models) :
    (∀ name fld a b,
      name ∈ keys pyM → name ∈ keys rsM →
      fld ∈ keys ((List.lookup name pyM).getD []) →
      fld ∈ keys ((List.lookup name rsM).getD []) →
      fld ∉ ignore_fields →
      (List.lookup fld ((List.lookup name pyM).getD [])).join = some a →
      (List.lookup fld ((List.lookup name rsM).getD [])).join = some b →
      a ≠ "" → b ≠ "" → a ≠ b →
      mismatchEntry category name fld a b ∈
        (compare_models category pyM rsM emptyReport).type_mismatches) ∧
    (∀ e ∈ (compare_models category pyM rsM emptyReport).type_mismatches,
      ∃ name fld a b,
        name ∈ keys pyM ∧ name ∈ keys rsM ∧
        fld ∈ keys ((List.lookup name pyM).getD []) ∧
        fld ∈ keys ((List.lookup name rsM).getD []) ∧
        fld ∉ ignore_fields ∧
        (List.lookup fld ((List.lookup name pyM).getD [])).join = some a ∧
        (List.lookup fld ((List.lookup name rsM).getD [])).join = some b ∧
        a ≠ "" ∧ b ≠ "" ∧ a ≠ b ∧
        e = mismatchEntry category name fld a b) := by
  constructor
  · intro name fld a b hnpy hnrs hfpy hfrs hfig hla hlb ha hb hab
    rw [compare_models_tm]
    rw [show emptyReport.type_mismatches = [] from rfl, List.nil_append, List.mem_flatMap]
    refine ⟨name, by rw [mem_sortedDedup, List.mem_append]; exact Or.inl hnpy, ?_⟩
    unfold tmBlock
    rw [if_neg (by simp [containsKey, hnrs]), if_neg (by simp [containsKey, hnpy])]
    dsimp only
    rw [List.mem_filterMap]
    refine ⟨fld, ?_, ?_⟩
    · rw [mem_sortedDedup, mem_setInter]
      exact ⟨mem_setDiff.2 ⟨hfpy, hfig⟩, mem_setDiff.2 ⟨hfrs, hfig⟩⟩
    · unfold fieldMismatch
      rw [hla, hlb]
      dsimp only
      rw [if_pos (by simp [bne_iff_ne, ha, hb, hab])]
  · intro e he
    rw [compare_models_tm] at he
    rw [show emptyReport.type_mismatches = [] from rfl, List.nil_append,
      List.mem_flatMap] at he
    obtain ⟨name, hname, he⟩ := he
    unfold tmBlock at he
    by_cases hc1 : (!(containsKey rsM name)) = true
    · rw [if_pos hc1] at he
      simp at he
    rw [if_neg hc1] at he
    by_cases hc2 : (!(containsKey pyM name)) = true
    · rw [if_pos hc2] at he
      simp at he
    rw [if_neg hc2] at he
    dsimp only at he
    rw [List.mem_filterMap] at he
    obtain ⟨fld, hfld, hfm⟩ := he
    rw [mem_sortedDedup, mem_setInter] at hfld
    have hfpy := mem_setDiff.1 hfld.1
    have hfrs := mem_setDiff.1 hfld.2
    have hnpy : name ∈ keys pyM := by
      rw [← containsKey_iff]
      revert hc2
      cases containsKey pyM name <;> simp
    have hnrs : name ∈ keys rsM := by
      rw [← containsKey_iff]
      revert hc1
      cases containsKey rsM name <;> simp
    unfold fieldMismatch at hfm
    cases hla : (List.lookup fld ((List.lookup name pyM).getD [])).join with
    | none =>
      cases hlb : (List.lookup fld ((List.lookup name rsM).getD [])).join with
      | none => rw [hla, hlb] at hfm; simp at hfm
      | some b => rw [hla, hlb] at hfm; simp at hfm
    | some a =>
      cases hlb : (List.lookup fld ((List.lookup name rsM).getD [])).join with
      | none => rw [hla, hlb] at hfm; simp at hfm
      | some b =>
        rw [hla, hlb] at hfm
        dsimp only at hfm
        by_cases hcond : (a != "" && b != "" && a != b) = true
        · rw [if_pos hcond] at hfm
          have heq := Option.some.inj hfm
          simp only [Bool.and_eq_true, bne_iff_ne, ne_eq] at hcond
          exact ⟨name, fld, a, b, hnpy, hnrs, hfpy.1, hfrs.1, hfpy.2, hla, hlb,
            hcond.1.1, hcond.1.2, hcond.2, heq.symm⟩
        · rw [if_neg hcond] at hfm
          simp at hfm

/-- Witness for `type_mismatch_characterization`, first part, at concrete
snapshots with one genuine mismatch. -/
theorem type_mismatch_characterization_witness :
    ("T" ∈ keys [("T", ([("f", some "string")] : Props))] ∧
      "T" ∈ keys [("T", ([("f", some "integer")] : Props))] ∧
      "f" ∈ keys ([("f", some "string")] : Props) ∧
      "f" ∈ keys ([("f", some "integer")] : Props) ∧
      "f" ∉ ignore_fields ∧
      ("string" : String) ≠ "" ∧ ("integer" : String) ≠ "" ∧
      ("string" : String) ≠ "integer") ∧
    mismatchEntry "bo" "T" "f" "string" "integer" ∈
      (compare_models "bo" [("T", [("f", some "string")])] [("T", [("f", some "integer")])]
        emptyReport).type_mismatches := by
  refine ⟨⟨by decide, by decide, by decide, by decide, by decide, by decide, by decide,
    by decide⟩, ?_⟩
  exact (type_mismatch_characterization "bo"
      [("T", [("f", some "string")])] [("T", [("f", some "integer")])]).1
    "T" "f" "string" "integer" (by decide) (by decide) (by decide) (by decide) (by decide)
    rfl rfl (by decide) (by decide) (by decide)

/-- C10: a present-but-empty type tag behaves exactly like an absent one:
the comparison tests the tags for truthiness, so when either side's tag is
the empty string (or missing), the loop iteration leaves the report
unchanged and contributes no mismatch entry, even if the tags differ. -/
theorem empty_tag_no_mismatch (category name : String) (P R : Props)
    (rep : DriftReport) (fld : String)
    (h : (List.lookup fld P).join = some "" ∨ (List.lookup fld R).join = some "" ∨
         (List.lookup fld P).join = none ∨ (List.lookup fld R).join = none) :
    fieldStep category name P R rep fld = rep ∧
    fieldMismatch category name P R fld = none := by
  unfold fieldStep fieldMismatch
  cases hP : (List.lookup fld P).join with
  | none =>
    cases hR : (List.lookup fld R).join with
    | none => exact ⟨rfl, rfl⟩
    | some b => exact ⟨rfl, rfl⟩
  | some a =>
    cases hR : (List.lookup fld R).join with
    | none => exact ⟨rfl, rfl⟩
    | some b =>
      dsimp only
      have hcond : (a != "" && b != "" && a != b) = false := by
        rcases h with h | h | h | h
        · rw [hP] at h
          rw [Option.some.inj h]
          simp
        · rw [hR] at h
          rw [Option.some.inj h]
          simp
        · rw [hP] at h
          exact absurd h (by simp)
        · rw [hR] at h
          exact absurd h (by simp)
      refine ⟨?_, ?_⟩
      · rw [if_neg (by simp [hcond])]
      · rw [if_neg (by simp [hcond])]

/-- Witness for `empty_tag_no_mismatch`: Python tag empty, Rust tag "int". -/
theorem empty_tag_no_mismatch_witness :
    ((List.lookup "f" ([("f", some "")] : Props)).join = some "" ∨
      (List.lookup "f" ([("f", some "int")] : Props)).join = some "" ∨
      (List.lookup "f" ([("f", some "")] : Props)).join = none ∨
      (List.lookup "f" ([("f", some "int")] : Props)).join = none) ∧
    (fieldStep "bo" "T" [("f", some "")] [("f", some "int")] emptyReport "f" = emptyReport ∧
      fieldMismatch "bo" "T" [("f", some "")] [("f", some "int")] "f" = none) :=
  ⟨Or.inl rfl,
    empty_tag_no_mismatch "bo" "T" [("f", some "")] [("f", some "int")] emptyReport "f"
      (Or.inl rfl)⟩

end BO4E

/-! ## Congruence of the comparator under view-equivalent inputs -/

namespace BO4E

theorem bool_eq_of_iff {a b : Bool} (h : a = true ↔ b = true) : a = b := by
  cases a <;> cases b <;> simp_all

theorem containsKey_congr {α β : Type} {M2 : Dict α} {M : Dict β}
    (h : ∀ x, x ∈ keys M2 ↔ x ∈ keys M) (n : String) :
    containsKey M2 n = containsKey M n :=
  bool_eq_of_iff (containsKey_iff.trans ((h n).trans containsKey_iff.symm))

theorem fieldStep_congr (category name : String) (P R P2 R2 : Props) (fld : String)
    (hp : (List.lookup fld P2).join = (List.lookup fld P).join)
    (hr : (List.lookup fld R2).join = (List.lookup fld R).join) (rep : DriftReport) :
    fieldStep category name P2 R2 rep fld = fieldStep category name P R rep fld := by
  unfold fieldStep
  rw [hp, hr]

theorem modelStep_congr (category : String) (pyM rsM pyM2 rsM2 : Models) (name : String)
    (hcr : containsKey rsM2 name = containsKey rsM name)
    (hcp : containsKey pyM2 name = containsKey pyM name)
    (hpf : ∀ x, x ∈ setDiff (keys ((List.lookup name pyM2).getD [])) ignore_fields ↔
                x ∈ setDiff (keys ((List.lookup name pyM).getD [])) ignore_fields)
    (hrf : ∀ x, x ∈ setDiff (keys ((List.lookup name rsM2).getD [])) ignore_fields ↔
                x ∈ setDiff (keys ((List.lookup name rsM).getD [])) ignore_fields)
    (hpl : ∀ fld, fld ∈ setDiff (keys ((List.lookup name pyM).getD [])) ignore_fields →
        (List.lookup fld ((List.lookup name pyM2).getD [])).join =
          (List.lookup fld ((List.lookup name pyM).getD [])).join)
    (hrl : ∀ fld, fld ∈ setDiff (keys ((List.lookup name rsM).getD [])) ignore_fields →
        (List.lookup fld ((List.lookup name rsM2).getD [])).join =
          (List.lookup fld ((List.lookup name rsM).getD [])).join)
    (rep : DriftReport) :
    modelStep category pyM2 rsM2 rep name = modelStep category pyM rsM rep name := by
  unfold modelStep
  rw [hcr, hcp]
  by_cases hc1 : (!(containsKey rsM name)) = true
  · rw [if_pos hc1, if_pos hc1]
  rw [if_neg hc1, if_neg hc1]
  by_cases hc2 : (!(containsKey pyM name)) = true
  · rw [if_pos hc2, if_pos hc2]
  rw [if_neg hc2, if_neg hc2]
  dsimp only
  have hmiss : ∀ x,
      x ∈ setDiff (setDiff (keys ((List.lookup name pyM2).getD [])) ignore_fields)
          (setDiff (keys ((List.lookup name rsM2).getD [])) ignore_fields) ↔
      x ∈ setDiff (setDiff (keys ((List.lookup name pyM).getD [])) ignore_fields)
          (setDiff (keys ((List.lookup name rsM).getD [])) ignore_fields) := by
    intro x
    rw [mem_setDiff, hpf x, hrf x]
    exact mem_setDiff.symm
  have hextra : ∀ x,
      x ∈ setDiff (setDiff (keys ((List.lookup name rsM2).getD [])) ignore_fields)
          (setDiff (keys ((List.lookup name pyM2).getD [])) ignore_fields) ↔
      x ∈ setDiff (setDiff (keys ((List.lookup name rsM).getD [])) ignore_fields)
          (setDiff (keys ((List.lookup name pyM).getD [])) ignore_fields) := by
    intro x
    rw [mem_setDiff, hrf x, hpf x]
    exact mem_setDiff.symm
  have hinter : sortedDedup
      (setInter (setDiff (keys ((List.lookup name pyM2).getD [])) ignore_fields)
        (setDiff (keys ((List.lookup name rsM2).getD [])) ignore_fields)) =
      sortedDedup
      (setInter (setDiff (keys ((List.lookup name pyM).getD [])) ignore_fields)
        (setDiff (keys ((List.lookup name rsM).getD [])) ignore_fields)) :=
    sortedDedup_congr (fun x => by
      rw [mem_setInter, hpf x, hrf x]
      exact mem_setInter.symm)
  rw [isEmpty_congr hmiss, sortedDedup_congr hmiss, isEmpty_congr hextra,
    sortedDedup_congr hextra, hinter]
  refine foldl_congr_mem (fun r fld hfld => ?_) _
  rw [mem_sortedDedup, mem_setInter] at hfld
  exact fieldStep_congr category name _ _ _ _ fld (hpl fld hfld.1) (hrl fld hfld.2) r

theorem compare_models_congr (category : String) (pyM rsM pyM2 rsM2 : Models)
    (hkeys : sortedDedup (keys pyM2 ++ keys rsM2) = sortedDedup (keys pyM ++ keys rsM))
    (hstep : ∀ rep name, name ∈ sortedDedup (keys pyM ++ keys rsM) →
        modelStep category pyM2 rsM2 rep name = modelStep category pyM rsM rep name)
    (rep : DriftReport) :
    compare_models category pyM2 rsM2 rep = compare_models category pyM rsM rep := by
  unfold compare_models
  rw [hkeys]
  exact foldl_congr_mem hstep rep

theorem enumStep_congr (pyE rsE pyE2 rsE2 : Enums) (name : String)
    (hcr : containsKey rsE2 name = containsKey rsE name)
    (hcp : containsKey pyE2 name = containsKey pyE name)
    (hpv : ∀ x, x ∈ (List.lookup name pyE2).getD [] ↔ x ∈ (List.lookup name pyE).getD [])
    (hrv : ∀ x, x ∈ (List.lookup name rsE2).getD [] ↔ x ∈ (List.lookup name rsE).getD [])
    (rep : DriftReport) :
    enumStep pyE2 rsE2 rep name = enumStep pyE rsE rep name := by
  unfold enumStep
  rw [hcr, hcp]
  dsimp only
  by_cases hc1 : (!(containsKey rsE name)) = true
  · rw [if_pos hc1, if_pos hc1]
  rw [if_neg hc1, if_neg hc1]
  by_cases hc2 : (!(containsKey pyE name)) = true
  · rw [if_pos hc2, if_pos hc2]
  rw [if_neg hc2, if_neg hc2]
  have hmiss : ∀ x, x ∈ setDiff ((List.lookup name pyE2).getD []) ((List.lookup name rsE2).getD []) ↔
      x ∈ setDiff ((List.lookup name pyE).getD []) ((List.lookup name rsE).getD []) := by
    intro x
    rw [mem_setDiff, hpv x, hrv x]
    exact mem_setDiff.symm
  have hextra : ∀ x, x ∈ setDiff ((List.lookup name rsE2).getD []) ((List.lookup name pyE2).getD []) ↔
      x ∈ setDiff ((List.lookup name rsE).getD []) ((List.lookup name pyE).getD []) := by
    intro x
    rw [mem_setDiff, hrv x, hpv x]
    exact mem_setDiff.symm
  rw [isEmpty_congr hmiss, sortedDedup_congr hmiss, isEmpty_congr hextra, sortedDedup_congr hextra]

theorem compare_enums_congr (pyE rsE pyE2 rsE2 : Enums)
    (hkeys : sortedDedup (keys pyE2 ++ keys rsE2) = sortedDedup (keys pyE ++ keys rsE))
    (hstep : ∀ rep name, name ∈ sortedDedup (keys pyE ++ keys rsE) →
        enumStep pyE2 rsE2 rep name = enumStep pyE rsE rep name)
    (rep : DriftReport) :
    compare_enums pyE2 rsE2 rep = compare_enums pyE rsE rep := by
  unfold compare_enums
  rw [hkeys]
  exact foldl_congr_mem hstep rep

end BO4E

/-! ## C2: invariance under ignore-listed fields -/

namespace BO4E

/-- `models[name]["properties"][fld] = v`: add (or overwrite) one field of
one type definition. -/
def addField (models : Models) (name fld : String) (v : Option String) : Models :=
  models.map (fun p => if p.1 == name then (p.1, dictInsert p.2 fld v) else p)

/-- `del models[name]["properties"][fld]`: remove one field of one type
definition (no-op when absent). -/
def removeField (models : Models) (name fld : String) : Models :=
  models.map (fun p => if p.1 == name then (p.1, p.2.filter (fun q => !(q.1 == fld))) else p)

theorem keys_map_fst {α : Type} (d : Dict α) (f : String × α → String × α)
    (hf : ∀ p, (f p).1 = p.1) : keys (d.map f) = keys d := by
  unfold keys
  rw [List.map_map]
  exact List.map_congr_left (fun p _ => hf p)

theorem lookup_map_entry {α : Type} (d : Dict α) (T : String) (g : α → α) (k : String) :
    List.lookup k (d.map (fun p => if p.1 == T then (p.1, g p.2) else p)) =
      if k == T then (List.lookup k d).map g else List.lookup k d := by
  induction d with
  | nil => cases h : (k == T) <;> simp [h]
  | cons p d ih =>
    obtain ⟨k1, v1⟩ := p
    rw [List.map_cons]
    by_cases h1 : k1 = T
    · have he : ((k1, v1).1 == T) = true := by simp [h1]
      simp only [he, if_true]
      by_cases hk : k = k1
      · have hkT : (k == T) = true := by simp [hk, h1]
        have hkk : (k == k1) = true := by simp [hk]
        rw [List.lookup_cons, List.lookup_cons]
        simp only [hkk, hkT]
        rfl
      · have hkT : (k == T) = false := by simp [h1 ▸ hk]
        have hkk : (k == k1) = false := by simp [hk]
        rw [List.lookup_cons, List.lookup_cons]
        simp only [hkk, hkT] at ih ⊢
        exact ih
    · have he : ((k1, v1).1 == T) = false := by simp [h1]
      simp only [he, Bool.false_eq_true, if_false]
      by_cases hk : k = k1
      · have hkT : (k == T) = false := by simp [hk, h1]
        have hkk : (k == k1) = true := by simp [hk]
        rw [List.lookup_cons, List.lookup_cons]
        simp only [hkk, hkT]
        rfl
      · have hkk : (k == k1) = false := by simp [hk]
        rw [List.lookup_cons, List.lookup_cons]
        simp only [hkk]
        exact ih

theorem keys_addField (M : Models) (T g : String) (v : Option String) :
    keys (addField M T g v) = keys M :=
  keys_map_fst M _ (fun p => by by_cases h : (p.1 == T) = true <;> simp [h])

theorem keys_removeField (M : Models) (T g : String) :
    keys (removeField M T g) = keys M :=
  keys_map_fst M _ (fun p => by by_cases h : (p.1 == T) = true <;> simp [h])

theorem lookup_addField (M : Models) (T g : String) (v : Option String) (k : String) :
    List.lookup k (addField M T g v) =
      if k == T then (List.lookup k M).map (fun props => dictInsert props g v)
      else List.lookup k M :=
  lookup_map_entry M T (fun props => dictInsert props g v) k

theorem lookup_removeField (M : Models) (T g : String) (k : String) :
    List.lookup k (removeField M T g) =
      if k == T then (List.lookup k M).map (fun props => props.filter (fun q => !(q.1 == g)))
      else List.lookup k M :=
  lookup_map_entry M T (fun props => props.filter (fun q => !(q.1 == g))) k

theorem mem_keys_filterOut {α : Type} (P : Dict α) (g x : String) :
    x ∈ keys (P.filter (fun q => !(q.1 == g))) ↔ x ∈ keys P ∧ x ≠ g := by
  unfold keys
  rw [List.mem_map]
  constructor
  · rintro ⟨q, hq, rfl⟩
    rw [List.mem_filter] at hq
    refine ⟨List.mem_map.2 ⟨q, hq.1, rfl⟩, ?_⟩
    have h2 := hq.2
    simp at h2
    exact h2
  · rintro ⟨hx, hxg⟩
    rw [List.mem_map] at hx
    obtain ⟨q, hq, rfl⟩ := hx
    exact ⟨q, List.mem_filter.2 ⟨hq, by simp [hxg]⟩, rfl⟩

theorem lookup_filterOut_ne {α : Type} (P : Dict α) {g k : String} (h : k ≠ g) :
    List.lookup k (P.filter (fun q => !(q.1 == g))) = List.lookup k P := by
  induction P with
  | nil => rfl
  | cons p P ih =>
    obtain ⟨k1, v1⟩ := p
    by_cases h1 : k1 = g
    · have hd : (!((k1, v1).1 == g)) = false := by simp [h1]
      rw [List.filter_cons, hd]
      simp only [Bool.false_eq_true, if_false]
      rw [ih, List.lookup_cons]
      have hne : (k == k1) = false := by simp [h1 ▸ h]
      simp only [hne]
    · have hd : (!((k1, v1).1 == g)) = true := by simp [h1]
      rw [List.filter_cons, hd]
      simp only [if_true]
      rw [List.lookup_cons, List.lookup_cons]
      by_cases hk : k = k1
      · have he : (k == k1) = true := by simp [hk]
        simp only [he]
      · have he : (k == k1) = false := by simp [hk]
        simp only [he]
        exact ih

/-- The per-name view of `compare_models` is unchanged by adding an
ignore-listed field to one type definition. -/
theorem addField_view (M : Models) (T g : String) (v : Option String) (hg : g ∈ ignore_fields) :
    (∀ name x, x ∈ setDiff (keys ((List.lookup name (addField M T g v)).getD [])) ignore_fields ↔
        x ∈ setDiff (keys ((List.lookup name M).getD [])) ignore_fields) ∧
    (∀ name fld, fld ∉ ignore_fields →
        (List.lookup fld ((List.lookup name (addField M T g v)).getD [])).join =
          (List.lookup fld ((List.lookup name M).getD [])).join) := by
  constructor
  · intro name x
    rw [lookup_addField]
    by_cases hT : name = T
    · have he : (name == T) = true := by simp [hT]
      simp only [he, if_true]
      cases hl : List.lookup name M with
      | none => simp
      | some props =>
        simp only [Option.map_some', Option.getD_some]
        rw [mem_setDiff, mem_setDiff, mem_keys_dictInsert]
        constructor
        · rintro ⟨hk | rfl, hig⟩
          · exact ⟨hk, hig⟩
          · exact absurd hg hig
        · rintro ⟨hk, hig⟩
          exact ⟨Or.inl hk, hig⟩
    · have he : (name == T) = false := by simp [hT]
      simp only [he, Bool.false_eq_true, if_false]
  · intro name fld hfld
    rw [lookup_addField]
    by_cases hT : name = T
    · have he : (name == T) = true := by simp [hT]
      simp only [he, if_true]
      cases hl : List.lookup name M with
      | none => simp
      | some props =>
        simp only [Option.map_some', Option.getD_some]
        rw [lookup_dictInsert_ne props v (fun hh => hfld (by rw [hh]; exact hg))]
    · have he : (name == T) = false := by simp [hT]
      simp only [he, Bool.false_eq_true, if_false]

/-- The per-name view of `compare_models` is unchanged by removing an
ignore-listed field from one type definition. -/
theorem removeField_view (M : Models) (T g : String) (hg : g ∈ ignore_fields) :
    (∀ name x, x ∈ setDiff (keys ((List.lookup name (removeField M T g)).getD [])) ignore_fields ↔
        x ∈ setDiff (keys ((List.lookup name M).getD [])) ignore_fields) ∧
    (∀ name fld, fld ∉ ignore_fields →
        (List.lookup fld ((List.lookup name (removeField M T g)).getD [])).join =
          (List.lookup fld ((List.lookup name M).getD [])).join) := by
  constructor
  · intro name x
    rw [lookup_removeField]
    by_cases hT : name = T
    · have he : (name == T) = true := by simp [hT]
      simp only [he, if_true]
      cases hl : List.lookup name M with
      | none => simp
      | some props =>
        simp only [Option.map_some', Option.getD_some]
        rw [mem_setDiff, mem_setDiff, mem_keys_filterOut]
        constructor
        · rintro ⟨⟨hk, _⟩, hig⟩
          exact ⟨hk, hig⟩
        · rintro ⟨hk, hig⟩
          exact ⟨⟨hk, fun hh => hig (by rw [hh]; exact hg)⟩, hig⟩
    · have he : (name == T) = false := by simp [hT]
      simp only [he, Bool.false_eq_true, if_false]
  · intro name fld hfld
    rw [lookup_removeField]
    by_cases hT : name = T
    · have he : (name == T) = true := by simp [hT]
      simp only [he, if_true]
      cases hl : List.lookup name M with
      | none => simp
      | some props =>
        simp only [Option.map_some', Option.getD_some]
        rw [lookup_filterOut_ne props (fun hh => hfld (by rw [hh]; exact hg))]
    · have he : (name == T) = false := by simp [hT]
      simp only [he, Bool.false_eq_true, if_false]

end BO4E

namespace BO4E

theorem compare_unfold (a b : Snapshot) :
    compare a b = compare_enums a.enum b.enum
      (compare_models "com" a.com b.com (compare_models "bo" a.bo b.bo emptyReport)) := rfl

theorem compare_models_addField_py (category : String) (pyM rsM : Models) (T g : String)
    (v : Option String) (hg : g ∈ ignore_fields) (rep : DriftReport) :
    compare_models category (addField pyM T g v) rsM rep =
      compare_models category pyM rsM rep := by
  have hv := addField_view pyM T g v hg
  apply compare_models_congr
  · rw [keys_addField]
  · intro r name _
    exact modelStep_congr category pyM rsM (addField pyM T g v) rsM name rfl
      (by unfold containsKey; rw [keys_addField]) (hv.1 name) (fun x => Iff.rfl)
      (fun fld hf => hv.2 name fld (mem_setDiff.1 hf).2) (fun fld _ => rfl) r

theorem compare_models_removeField_py (category : String) (pyM rsM : Models) (T g : String)
    (hg : g ∈ ignore_fields) (rep : DriftReport) :
    compare_models category (removeField pyM T g) rsM rep =
      compare_models category pyM rsM rep := by
  have hv := removeField_view pyM T g hg
  apply compare_models_congr
  · rw [keys_removeField]
  · intro r name _
    exact modelStep_congr category pyM rsM (removeField pyM T g) rsM name rfl
      (by unfold containsKey; rw [keys_removeField]) (hv.1 name) (fun x => Iff.rfl)
      (fun fld hf => hv.2 name fld (mem_setDiff.1 hf).2) (fun fld _ => rfl) r

theorem compare_models_addField_rs (category : String) (pyM rsM : Models) (T g : String)
    (v : Option String) (hg : g ∈ ignore_fields) (rep : DriftReport) :
    compare_models category pyM (addField rsM T g v) rep =
      compare_models category pyM rsM rep := by
  have hv := addField_view rsM T g v hg
  apply compare_models_congr
  · rw [keys_addField]
  · intro r name _
    exact modelStep_congr category pyM rsM pyM (addField rsM T g v) name
      (by unfold containsKey; rw [keys_addField]) rfl (fun x => Iff.rfl) (hv.1 name)
      (fun fld _ => rfl) (fun fld hf => hv.2 name fld (mem_setDiff.1 hf).2) r

theorem compare_models_removeField_rs (category : String) (pyM rsM : Models) (T g : String)
    (hg : g ∈ ignore_fields) (rep : DriftReport) :
    compare_models category pyM (removeField rsM T g) rep =
      compare_models category pyM rsM rep := by
  have hv := removeField_view rsM T g hg
  apply compare_models_congr
  · rw [keys_removeField]
  · intro r name _
    exact modelStep_congr category pyM rsM pyM (removeField rsM T g) name
      (by unfold containsKey; rw [keys_removeField]) rfl (fun x => Iff.rfl) (hv.1 name)
      (fun fld _ => rfl) (fun fld hf => hv.2 name fld (mem_setDiff.1 hf).2) r

/-- C2: adding or removing a field whose name is in the fixed ignore set
from any type definition of either snapshot, in either category, leaves
the drift report of the whole comparison unchanged. -/
theorem ignore_fields_invariant (a b : Snapshot) (T g : String) (v : Option String)
    (hg : g ∈ ignore_fields) :
    compare { a with bo := addField a.bo T g v } b = compare a b ∧
    compare { a with bo := removeField a.bo T g } b = compare a b ∧
    compare { a with com := addField a.com T g v } b = compare a b ∧
    compare { a with com := removeField a.com T g } b = compare a b ∧
    compare a { b with bo := addField b.bo T g v } = compare a b ∧
    compare a { b with bo := removeField b.bo T g } = compare a b ∧
    compare a { b with com := addField b.com T g v } = compare a b ∧
    compare a { b with com := removeField b.com T g } = compare a b := by
  refine ⟨?_, ?_, ?_, ?_, ?_, ?_, ?_, ?_⟩
  · rw [compare_unfold, compare_unfold]
    rw [show ({ a with bo := addField a.bo T g v } : Snapshot).bo = addField a.bo T g v from rfl]
    rw [compare_models_addField_py "bo" a.bo b.bo T g v hg]
  · rw [compare_unfold, compare_unfold]
    rw [show ({ a with bo := removeField a.bo T g } : Snapshot).bo = removeField a.bo T g from rfl]
    rw [compare_models_removeField_py "bo" a.bo b.bo T g hg]
  · rw [compare_unfold, compare_unfold]
    rw [show ({ a with com := addField a.com T g v } : Snapshot).com = addField a.com T g v from rfl]
    rw [compare_models_addField_py "com" a.com b.com T g v hg]
  · rw [compare_unfold, compare_unfold]
    rw [show ({ a with com := removeField a.com T g } : Snapshot).com = removeField a.com T g from rfl]
    rw [compare_models_removeField_py "com" a.com b.com T g hg]
  · rw [compare_unfold, compare_unfold]
    rw [show ({ b with bo := addField b.bo T g v } : Snapshot).bo = addField b.bo T g v from rfl]
    rw [compare_models_addField_rs "bo" a.bo b.bo T g v hg]
  · rw [compare_unfold, compare_unfold]
    rw [show ({ b with bo := removeField b.bo T g } : Snapshot).bo = removeField b.bo T g from rfl]
    rw [compare_models_removeField_rs "bo" a.bo b.bo T g hg]
  · rw [compare_unfold, compare_unfold]
    rw [show ({ b with com := addField b.com T g v } : Snapshot).com = addField b.com T g v from rfl]
    rw [compare_models_addField_rs "com" a.com b.com T g v hg]
  · rw [compare_unfold, compare_unfold]
    rw [show ({ b with com := removeField b.com T g } : Snapshot).com = removeField b.com T g from rfl]
    rw [compare_models_removeField_rs "com" a.com b.com T g hg]

/-- Witness for `ignore_fields_invariant` at concrete snapshots. -/
theorem ignore_fields_invariant_witness :
    "_typ" ∈ ignore_fields ∧
    compare { bo := addField [("Z", [("x", some "int")])] "Z" "_typ" (some "s"),
              com := [], enum := [("E", ["A"])] }
        { bo := [("Z", [("x", some "int")])], com := [], enum := [] } =
      compare { bo := [("Z", [("x", some "int")])], com := [], enum := [("E", ["A"])] }
        { bo := [("Z", [("x", some "int")])], com := [], enum := [] } :=
  ⟨by decide,
    (ignore_fields_invariant
      { bo := [("Z", [("x", some "int")])], com := [], enum := [("E", ["A"])] }
      { bo := [("Z", [("x", some "int")])], com := [], enum := [] }
      "Z" "_typ" (some "s") (by decide)).1⟩

end BO4E

/-! ## C6: determinism - independence from dictionary entry order -/

namespace BO4E

/-- Two property tables with the same key set and the same entry per key:
one is the other with its dict entries re-ordered. -/
abbrev PropsEquivalent (P2 P : Props) : Prop :=
  sortedDedup (keys P2) = sortedDedup (keys P) ∧
  ∀ fld ∈ keys P, List.lookup fld P2 = List.lookup fld P

/-- Two model tables presenting the same types with equivalent property
tables, in any entry order. -/
abbrev ModelsEquivalent (M2 M : Models) : Prop :=
  sortedDedup (keys M2) = sortedDedup (keys M) ∧
  ∀ name ∈ keys M,
    PropsEquivalent ((List.lookup name M2).getD []) ((List.lookup name M).getD [])

/-- Two enum tables with the same enum names and the same variant sets, in
any entry or variant order. -/
abbrev EnumsEquivalent (E2 E : Enums) : Prop :=
  sortedDedup (keys E2) = sortedDedup (keys E) ∧
  ∀ name ∈ keys E,
    sortedDedup ((List.lookup name E2).getD []) = sortedDedup ((List.lookup name E).getD [])

/-- Snapshot contents equal up to dictionary entry order and enum variant
order: exactly the freedom an arbitrary hash-table iteration order could
introduce. -/
abbrev SnapshotEquivalent (a2 a : Snapshot) : Prop :=
  ModelsEquivalent a2.bo a.bo ∧ ModelsEquivalent a2.com a.com ∧
    EnumsEquivalent a2.enum a.enum

theorem mem_of_sortedDedup_eq {l2 l : List String} (h : sortedDedup l2 = sortedDedup l) :
    ∀ x, x ∈ l2 ↔ x ∈ l := fun x => by
  rw [← mem_sortedDedup, h, mem_sortedDedup]

theorem PropsEquivalent.lookup_eq {P2 P : Props} (h : PropsEquivalent P2 P) (fld : String) :
    List.lookup fld P2 = List.lookup fld P := by
  by_cases hm : fld ∈ keys P
  · exact h.2 fld hm
  · rw [lookup_eq_none hm,
      lookup_eq_none (fun hm2 => hm ((mem_of_sortedDedup_eq h.1 fld).1 hm2))]

theorem ModelsEquivalent.props_equiv {M2 M : Models} (h : ModelsEquivalent M2 M)
    (name : String) :
    PropsEquivalent ((List.lookup name M2).getD []) ((List.lookup name M).getD []) := by
  by_cases hm : name ∈ keys M
  · exact h.2 name hm
  · have h2 : name ∉ keys M2 := fun hx => hm ((mem_of_sortedDedup_eq h.1 name).1 hx)
    rw [lookup_eq_none hm, lookup_eq_none h2]
    exact ⟨rfl, fun fld _ => rfl⟩

theorem EnumsEquivalent.variants_iff {E2 E : Enums} (h : EnumsEquivalent E2 E)
    (name : String) :
    ∀ x, x ∈ (List.lookup name E2).getD [] ↔ x ∈ (List.lookup name E).getD [] := by
  by_cases hm : name ∈ keys E
  · exact mem_of_sortedDedup_eq (h.2 name hm)
  · have h2 : name ∉ keys E2 := fun hx => hm ((mem_of_sortedDedup_eq h.1 name).1 hx)
    rw [lookup_eq_none hm, lookup_eq_none h2]
    exact fun x => Iff.rfl

theorem compare_models_equiv (category : String) {pyM2 pyM rsM2 rsM : Models}
    (hpy : ModelsEquivalent pyM2 pyM) (hrs : ModelsEquivalent rsM2 rsM)
    (rep : DriftReport) :
    compare_models category pyM2 rsM2 rep = compare_models category pyM rsM rep := by
  apply compare_models_congr
  · exact sortedDedup_congr (fun x => by
      rw [List.mem_append, List.mem_append]
      exact or_congr (mem_of_sortedDedup_eq hpy.1 x) (mem_of_sortedDedup_eq hrs.1 x))
  · intro r name _
    refine modelStep_congr category pyM rsM pyM2 rsM2 name
      (containsKey_congr (mem_of_sortedDedup_eq hrs.1) name)
      (containsKey_congr (mem_of_sortedDedup_eq hpy.1) name)
      (fun x => ?_) (fun x => ?_) (fun fld _ => ?_) (fun fld _ => ?_) r
    · rw [mem_setDiff, mem_setDiff]
      exact and_congr_left' (mem_of_sortedDedup_eq (hpy.props_equiv name).1 x)
    · rw [mem_setDiff, mem_setDiff]
      exact and_congr_left' (mem_of_sortedDedup_eq (hrs.props_equiv name).1 x)
    · rw [(hpy.props_equiv name).lookup_eq fld]
    · rw [(hrs.props_equiv name).lookup_eq fld]

theorem compare_enums_equiv {pyE2 pyE rsE2 rsE : Enums}
    (hpy : EnumsEquivalent pyE2 pyE) (hrs : EnumsEquivalent rsE2 rsE)
    (rep : DriftReport) :
    compare_enums pyE2 rsE2 rep = compare_enums pyE rsE rep := by
  apply compare_enums_congr
  · exact sortedDedup_congr (fun x => by
      rw [List.mem_append, List.mem_append]
      exact or_congr (mem_of_sortedDedup_eq hpy.1 x) (mem_of_sortedDedup_eq hrs.1 x))
  · intro r name _
    exact enumStep_congr pyE rsE pyE2 rsE2 name
      (containsKey_congr (mem_of_sortedDedup_eq hrs.1) name)
      (containsKey_congr (mem_of_sortedDedup_eq hpy.1) name)
      (hpy.variants_iff name) (hrs.variants_iff name) r

/-- C6: the comparator and renderer are deterministic functions of the
snapshot contents alone: presenting either snapshot's dictionaries or enum
variant lists in any other order (the only freedom an arbitrary hash-table
iteration order could introduce) yields the same comparison result and a
byte-identical rendered report, because every traversal is sorted before
iteration. -/
theorem deterministic_report {a2 a b2 b : Snapshot}
    (ha : SnapshotEquivalent a2 a) (hb : SnapshotEquivalent b2 b) :
    compare a2 b2 = compare a b ∧
    generate_report (compare a2 b2) = generate_report (compare a b) := by
  have hc : compare a2 b2 = compare a b := by
    rw [compare_unfold, compare_unfold,
      compare_models_equiv "bo" ha.1 hb.1,
      compare_models_equiv "com" ha.2.1 hb.2.1,
      compare_enums_equiv ha.2.2 hb.2.2]
  exact ⟨hc, by rw [hc]⟩

/-- Witness for `deterministic_report`: a snapshot with permuted dictionary
entries and variant lists against the same comparison partner. -/
theorem deterministic_report_witness :
    SnapshotEquivalent
      { bo := [("B", []), ("A", [("y", some "str"), ("x", some "int")])], com := [],
        enum := [("E", ["V", "U"])] }
      { bo := [("A", [("x", some "int"), ("y", some "str")]), ("B", [])], com := [],
        enum := [("E", ["U", "V"])] } ∧
    SnapshotEquivalent
      { bo := [("A", [("x", some "bool")])], com := [], enum := [] }
      { bo := [("A", [("x", some "bool")])], com := [], enum := [] } ∧
    compare
        { bo := [("B", []), ("A", [("y", some "str"), ("x", some "int")])], com := [],
          enum := [("E", ["V", "U"])] }
        { bo := [("A", [("x", some "bool")])], com := [], enum := [] } =
      compare
        { bo := [("A", [("x", some "int"), ("y", some "str")]), ("B", [])], com := [],
          enum := [("E", ["U", "V"])] }
        { bo := [("A", [("x", some "bool")])], com := [], enum := [] } := by
  refine ⟨by decide, by decide, ?_⟩
  exact (deterministic_report (by decide) (by decide)).1

end BO4E

/-! ## C4: symmetry of compare under swapping the snapshots -/

namespace BO4E

/-- Coupling between the reports of `compare(A, B)` (here `r`) and
`compare(B, A)` (here `s`): the missing-dictionaries are exactly swapped,
and both mismatch lists render a common list `L` of
(qualified prefix, A-side type, B-side type) triples, with the two
reported type values swapped in `s`. -/
def swapInv (r s : DriftReport) (L : List (String × String × String)) : Prop :=
  s.missing_in_rust = r.missing_in_python ∧
  s.missing_in_python = r.missing_in_rust ∧
  r.type_mismatches = L.map (fun t => mismatchText t.1 t.2.1 t.2.2) ∧
  s.type_mismatches = L.map (fun t => mismatchText t.1 t.2.2 t.2.1)

theorem mismatch_cond_swap (a b : String) :
    (b != "" && a != "" && b != a) = (a != "" && b != "" && a != b) := by
  apply bool_eq_of_iff
  simp only [Bool.and_eq_true, bne_iff_ne, ne_eq]
  constructor
  · rintro ⟨⟨h1, h2⟩, h3⟩
    exact ⟨⟨h2, h1⟩, fun hh => h3 hh.symm⟩
  · rintro ⟨⟨h1, h2⟩, h3⟩
    exact ⟨⟨h2, h1⟩, fun hh => h3 hh.symm⟩

theorem fieldStep_swap (category name : String) (P R : Props) (fld : String)
    {r s : DriftReport} {L : List (String × String × String)} (h : swapInv r s L) :
    ∃ L2, swapInv (fieldStep category name P R r fld) (fieldStep category name R P s fld) L2 := by
  unfold fieldStep
  cases hP : (List.lookup fld P).join with
  | none =>
    cases hR : (List.lookup fld R).join with
    | none => exact ⟨L, h⟩
    | some b => exact ⟨L, h⟩
  | some a =>
    cases hR : (List.lookup fld R).join with
    | none => exact ⟨L, h⟩
    | some b =>
      dsimp only
      rw [mismatch_cond_swap a b]
      by_cases hc : (a != "" && b != "" && a != b) = true
      · rw [if_pos hc, if_pos hc]
        refine ⟨L ++ [(category ++ "/" ++ name ++ "." ++ fld, a, b)], h.1, h.2.1, ?_, ?_⟩
        · show r.type_mismatches ++ [mismatchEntry category name fld a b] = _
          rw [List.map_append, ← h.2.2.1]
          rfl
        · show s.type_mismatches ++ [mismatchEntry category name fld b a] = _
          rw [List.map_append, ← h.2.2.2]
          rfl
      · rw [if_neg hc, if_neg hc]
        exact ⟨L, h⟩

theorem foldl_swap (f g : DriftReport → String → DriftReport) :
    ∀ (names : List String),
      (∀ r s L n, n ∈ names → swapInv r s L → ∃ L2, swapInv (f r n) (g s n) L2) →
      ∀ r s L, swapInv r s L →
        ∃ L2, swapInv (names.foldl f r) (names.foldl g s) L2 := by
  intro names
  induction names with
  | nil => exact fun _ r s L h => ⟨L, h⟩
  | cons x xs ih =>
    intro hstep r s L h
    obtain ⟨L1, h1⟩ := hstep r s L x (List.mem_cons_self x xs) h
    rw [List.foldl_cons, List.foldl_cons]
    exact ih (fun r2 s2 L2 n hn h2 => hstep r2 s2 L2 n (List.mem_cons_of_mem x hn) h2)
      _ _ _ h1

end BO4E

namespace BO4E

theorem swapInv_inserts {r s : DriftReport} {L : List (String × String × String)}
    (h : swapInv r s L) (k vm ve : String) (c1 c2 : Prop) [Decidable c1] [Decidable c2] :
    swapInv
      (if c2 then
        { (if c1 then { r with missing_in_rust := dictInsert r.missing_in_rust k vm } else r) with
          missing_in_python := dictInsert
            (if c1 then { r with missing_in_rust := dictInsert r.missing_in_rust k vm }
             else r).missing_in_python k ve }
       else (if c1 then { r with missing_in_rust := dictInsert r.missing_in_rust k vm } else r))
      (if c1 then
        { (if c2 then { s with missing_in_rust := dictInsert s.missing_in_rust k ve } else s) with
          missing_in_python := dictInsert
            (if c2 then { s with missing_in_rust := dictInsert s.missing_in_rust k ve }
             else s).missing_in_python k vm }
       else (if c2 then { s with missing_in_rust := dictInsert s.missing_in_rust k ve } else s))
      L := by
  obtain ⟨h1, h2, h3, h4⟩ := h
  split_ifs <;> exact ⟨by rw [h1], by rw [h2], h3, h4⟩

end BO4E

namespace BO4E

theorem modelStep_swap (category : String) (pyM rsM : Models) (name : String)
    (hmem : name ∈ keys pyM ∨ name ∈ keys rsM)
    {r s : DriftReport} {L : List (String × String × String)} (h : swapInv r s L) :
    ∃ L2, swapInv (modelStep category pyM rsM r name) (modelStep category rsM pyM s name) L2 := by
  unfold modelStep
  by_cases hrs : name ∈ keys rsM
  · by_cases hpy : name ∈ keys pyM
    · rw [if_neg (by simp [containsKey, hrs])]
      rw [if_neg (by simp [containsKey, hpy])]
      rw [if_neg (by simp [containsKey, hpy])]
      rw [if_neg (by simp [containsKey, hrs])]
      dsimp only
      generalize (List.lookup name pyM).getD [] = P
      generalize (List.lookup name rsM).getD [] = R
      rw [show sortedDedup (setInter (setDiff (keys R) ignore_fields)
            (setDiff (keys P) ignore_fields)) =
          sortedDedup (setInter (setDiff (keys P) ignore_fields)
            (setDiff (keys R) ignore_fields)) from
        sortedDedup_congr (fun x => by rw [mem_setInter, mem_setInter]; exact and_comm)]
      refine foldl_swap (fieldStep category name P R) (fieldStep category name R P) _
        (fun r2 s2 L2 n _ h2 => fieldStep_swap category name P R n h2) _ _ L ?_
      apply swapInv_inserts h
    · rw [if_neg (by simp [containsKey, hrs])]
      rw [if_pos (by simp [containsKey, hpy])]
      rw [if_pos (by simp [containsKey, hpy])]
      exact ⟨L, by rw [h.1], h.2.1, h.2.2.1, h.2.2.2⟩
  · by_cases hpy : name ∈ keys pyM
    · rw [if_pos (by simp [containsKey, hrs])]
      rw [if_neg (by simp [containsKey, hpy])]
      rw [if_pos (by simp [containsKey, hrs])]
      exact ⟨L, h.1, by rw [h.2.1], h.2.2.1, h.2.2.2⟩
    · exact absurd hmem (by simp [hpy, hrs])

end BO4E

namespace BO4E

theorem enumStep_common (pyE rsE : Enums) (rep : DriftReport) {name : String}
    (hpy : name ∈ keys pyE) (hrs : name ∈ keys rsE) :
    enumStep pyE rsE rep name =
      (let missing := setDiff ((List.lookup name pyE).getD []) ((List.lookup name rsE).getD []);
       let extra := setDiff ((List.lookup name rsE).getD []) ((List.lookup name pyE).getD []);
       let rep1 := if !missing.isEmpty then
           { rep with missing_in_rust := (dictInsert rep.missing_in_rust
               ("enum/" ++ name) ("variants: " ++ pyListRepr (sortedDedup missing))) }
         else rep
       if !extra.isEmpty then
         { rep1 with missing_in_python := (dictInsert rep1.missing_in_python
             ("enum/" ++ name) ("variants: " ++ pyListRepr (sortedDedup extra))) }
       else rep1) := by
  unfold enumStep
  rw [if_neg (by simp [containsKey, hrs]), if_neg (by simp [containsKey, hpy])]

theorem enumStep_swap (pyE rsE : Enums) (name : String)
    (hmem : name ∈ keys pyE ∨ name ∈ keys rsE)
    {r s : DriftReport} {L : List (String × String × String)} (h : swapInv r s L) :
    ∃ L2, swapInv (enumStep pyE rsE r name) (enumStep rsE pyE s name) L2 := by
  by_cases hrs : name ∈ keys rsE
  · by_cases hpy : name ∈ keys pyE
    · rw [enumStep_common pyE rsE r hpy hrs, enumStep_common rsE pyE s hrs hpy]
      dsimp only
      exact ⟨L, swapInv_inserts h _ _ _ _ _⟩
    · rw [enumStep_only_rust pyE rsE r hrs hpy, enumStep_absent_rust rsE pyE s hpy]
      exact ⟨L, by rw [h.1], h.2.1, h.2.2.1, h.2.2.2⟩
  · by_cases hpy : name ∈ keys pyE
    · rw [enumStep_absent_rust pyE rsE r hrs, enumStep_only_rust rsE pyE s hpy hrs]
      exact ⟨L, h.1, by rw [h.2.1], h.2.2.1, h.2.2.2⟩
    · exact absurd hmem (by simp [hpy, hrs])

theorem compare_models_swap (category : String) (pyM rsM : Models)
    {r s : DriftReport} {L : List (String × String × String)} (h : swapInv r s L) :
    ∃ L2, swapInv (compare_models category pyM rsM r) (compare_models category rsM pyM s) L2 := by
  unfold compare_models
  rw [show sortedDedup (keys rsM ++ keys pyM) = sortedDedup (keys pyM ++ keys rsM) from
    sortedDedup_congr (fun x => by rw [List.mem_append, List.mem_append]; exact or_comm)]
  refine foldl_swap _ _ _ (fun r2 s2 L2 n hn h2 => ?_) _ _ L h
  refine modelStep_swap category pyM rsM n ?_ h2
  rw [mem_sortedDedup, List.mem_append] at hn
  exact hn

theorem compare_enums_swap (pyE rsE : Enums)
    {r s : DriftReport} {L : List (String × String × String)} (h : swapInv r s L) :
    ∃ L2, swapInv (compare_enums pyE rsE r) (compare_enums rsE pyE s) L2 := by
  unfold compare_enums
  rw [show sortedDedup (keys rsE ++ keys pyE) = sortedDedup (keys pyE ++ keys rsE) from
    sortedDedup_congr (fun x => by rw [List.mem_append, List.mem_append]; exact or_comm)]
  refine foldl_swap _ _ _ (fun r2 s2 L2 n hn h2 => ?_) _ _ L h
  refine enumStep_swap pyE rsE n ?_ h2
  rw [mem_sortedDedup, List.mem_append] at hn
  exact hn

/-- C4: `compare(B, A)` has its `missing_in_rust`/`missing_in_python`
collections exactly equal to `compare(A, B)`'s `missing_in_python`/
`missing_in_rust` respectively, and the two `type_mismatches` lists render
one common list of (qualified name, A-type, B-type) triples, with the
reported Python-side and Rust-side values swapped in each entry. -/
theorem compare_symmetry (a b : Snapshot) :
    (compare b a).missing_in_rust = (compare a b).missing_in_python ∧
    (compare b a).missing_in_python = (compare a b).missing_in_rust ∧
    ∃ L : List (String × String × String),
      (compare a b).type_mismatches = L.map (fun t => mismatchText t.1 t.2.1 t.2.2) ∧
      (compare b a).type_mismatches = L.map (fun t => mismatchText t.1 t.2.2 t.2.1) := by
  have h0 : swapInv emptyReport emptyReport [] := ⟨rfl, rfl, rfl, rfl⟩
  obtain ⟨L1, h1⟩ := compare_models_swap "bo" a.bo b.bo h0
  obtain ⟨L2, h2⟩ := compare_models_swap "com" a.com b.com h1
  obtain ⟨L3, h3⟩ := compare_enums_swap a.enum b.enum h2
  rw [compare_unfold a b, compare_unfold b a]
  exact ⟨h3.1, h3.2.1, L3, h3.2.2.1, h3.2.2.2⟩

end BO4E

/-! ## C8: adding a field to A that B lacks strictly extends missing_in_rust -/

namespace BO4E

/-- The common branch of `modelStep` (both sides present), with the two
property tables abstracted. -/
def modelCommon (category name : String) (P R : Props) (rep : DriftReport) : DriftReport :=
  let py_fields := setDiff (keys P) ignore_fields
  let rs_fields := setDiff (keys R) ignore_fields
  let missing := setDiff py_fields rs_fields
  let extra := setDiff rs_fields py_fields
  let rep1 := if !missing.isEmpty then
      { rep with missing_in_rust := (dictInsert rep.missing_in_rust
          (category ++ "/" ++ name) ("fields: " ++ pyListRepr (sortedDedup missing))) }
    else rep
  let rep2 := if !extra.isEmpty then
      { rep1 with missing_in_python := (dictInsert rep1.missing_in_python
          (category ++ "/" ++ name) ("fields: " ++ pyListRepr (sortedDedup extra))) }
    else rep1
  (sortedDedup (setInter py_fields rs_fields)).foldl (fieldStep category name P R) rep2

theorem modelStep_eq_common (category : String) (pyM rsM : Models) (rep : DriftReport)
    {name : String} (hpy : name ∈ keys pyM) (hrs : name ∈ keys rsM) :
    modelStep category pyM rsM rep name =
      modelCommon category name ((List.lookup name pyM).getD [])
        ((List.lookup name rsM).getD []) rep := by
  unfold modelStep modelCommon
  rw [if_neg (by simp [containsKey, hrs]), if_neg (by simp [containsKey, hpy])]

theorem dictInsert_pointwise {α : Type} (d : Dict α) (k2 : String) (v : α) (k : String) :
    List.lookup k (dictInsert d k2 v) = if k = k2 then some v else List.lookup k d := by
  by_cases h : k = k2
  · rw [if_pos h, h]
    exact lookup_dictInsert_self d k2 v
  · rw [if_neg h]
    exact lookup_dictInsert_ne d v h

/-- Coupling of the two reports in the C8 argument: equal everywhere except
at the qualified name of the modified type, where the `missing_in_rust`
lookups are pinned to `A2` (modified run) and `A` (baseline run). -/
def mirRel (q : String) (A2 A : Option String) (r2 r : DriftReport) : Prop :=
  r2.missing_in_python = r.missing_in_python ∧
  r2.type_mismatches = r.type_mismatches ∧
  (∀ k, k ≠ q → List.lookup k r2.missing_in_rust = List.lookup k r.missing_in_rust) ∧
  List.lookup q r2.missing_in_rust = A2 ∧
  List.lookup q r.missing_in_rust = A

theorem mirRel_insert_mir {q : String} {A2 A : Option String} {r2 r : DriftReport}
    (h : mirRel q A2 A r2 r) {k2 : String} (hk : k2 ≠ q) (v : String) :
    mirRel q A2 A
      { r2 with missing_in_rust := dictInsert r2.missing_in_rust k2 v }
      { r with missing_in_rust := dictInsert r.missing_in_rust k2 v } := by
  obtain ⟨h1, h2, h3, h4, h5⟩ := h
  refine ⟨h1, h2, fun k hkq => ?_, ?_, ?_⟩
  · show List.lookup k (dictInsert r2.missing_in_rust k2 v) = _
    rw [dictInsert_pointwise, dictInsert_pointwise]
    by_cases hk2 : k = k2
    · rw [if_pos hk2, if_pos hk2]
    · rw [if_neg hk2, if_neg hk2]
      exact h3 k hkq
  · show List.lookup q (dictInsert r2.missing_in_rust k2 v) = A2
    rw [lookup_dictInsert_ne _ _ (fun hh => hk hh.symm)]
    exact h4
  · show List.lookup q (dictInsert r.missing_in_rust k2 v) = A
    rw [lookup_dictInsert_ne _ _ (fun hh => hk hh.symm)]
    exact h5

theorem mirRel_insert_mip {q : String} {A2 A : Option String} {r2 r : DriftReport}
    (h : mirRel q A2 A r2 r) (k2 v : String) :
    mirRel q A2 A
      { r2 with missing_in_python := dictInsert r2.missing_in_python k2 v }
      { r with missing_in_python := dictInsert r.missing_in_python k2 v } := by
  obtain ⟨h1, h2, h3, h4, h5⟩ := h
  exact ⟨by show dictInsert r2.missing_in_python k2 v = _
            rw [h1], h2, h3, h4, h5⟩

theorem mirRel_fold_fieldStep {q : String} {A2 A : Option String} {r2 r : DriftReport}
    (h : mirRel q A2 A r2 r) (category name : String) (P R : Props) (l : List String) :
    mirRel q A2 A (l.foldl (fieldStep category name P R) r2)
      (l.foldl (fieldStep category name P R) r) := by
  obtain ⟨h1, h2, h3, h4, h5⟩ := h
  have k2 := foldl_fieldStep_keeps_missing category name P R l r2
  have k1 := foldl_fieldStep_keeps_missing category name P R l r
  refine ⟨?_, ?_, ?_, ?_, ?_⟩
  · rw [k2.2, k1.2, h1]
  · rw [foldl_fieldStep_tm, foldl_fieldStep_tm, h2]
  · intro k hk
    rw [k2.1, k1.1]
    exact h3 k hk
  · rw [k2.1]
    exact h4
  · rw [k1.1]
    exact h5

end BO4E

namespace BO4E

theorem mirRel_step (category : String) (pyM rsM : Models) {q : String}
    {A2 A : Option String} {r2 r : DriftReport}
    (h : mirRel q A2 A r2 r) (n : String) (hk : category ++ "/" ++ n ≠ q) :
    mirRel q A2 A (modelStep category pyM rsM r2 n) (modelStep category pyM rsM r n) := by
  unfold modelStep
  by_cases hc1 : (!(containsKey rsM n)) = true
  · rw [if_pos hc1, if_pos hc1]
    exact mirRel_insert_mir h hk _
  rw [if_neg hc1, if_neg hc1]
  by_cases hc2 : (!(containsKey pyM n)) = true
  · rw [if_pos hc2, if_pos hc2]
    exact mirRel_insert_mip h _ _
  rw [if_neg hc2, if_neg hc2]
  dsimp only
  apply mirRel_fold_fieldStep
  split_ifs with he hm hm
  · exact mirRel_insert_mip (mirRel_insert_mir h hk _) _ _
  · exact mirRel_insert_mip h _ _
  · exact mirRel_insert_mir h hk _
  · exact h

theorem mirRel_foldl (category : String) (pyM rsM : Models) {q : String}
    {A2 A : Option String} (l : List String)
    (hl : ∀ n ∈ l, category ++ "/" ++ n ≠ q) :
    ∀ {r2 r}, mirRel q A2 A r2 r →
      mirRel q A2 A (l.foldl (modelStep category pyM rsM) r2)
        (l.foldl (modelStep category pyM rsM) r) := by
  induction l with
  | nil => exact fun h => h
  | cons x xs ih =>
    intro r2 r h
    rw [List.foldl_cons, List.foldl_cons]
    exact ih (fun n hn => hl n (List.mem_cons_of_mem x hn))
      (mirRel_step category pyM rsM h x (hl x (List.mem_cons_self x xs)))

theorem mem_keys_of_lookup {α : Type} {d : Dict α} {k : String} {v : α}
    (h : List.lookup k d = some v) : k ∈ keys d := by
  by_contra hn
  rw [lookup_eq_none hn] at h
  exact Option.noConfusion h

end BO4E

namespace BO4E

theorem modelCommon_addField (category T : String) (P R : Props) (f : String)
    (v : Option String) (rep : DriftReport)
    (hfig : f ∉ ignore_fields) (hfp : f ∉ keys P) (hfr : f ∉ keys R)
    (h0 : List.lookup (category ++ "/" ++ T) rep.missing_in_rust = none) :
    mirRel (category ++ "/" ++ T)
      (some ("fields: " ++ pyListRepr (sortedDedup
        (setDiff (setDiff (keys P) ignore_fields) (setDiff (keys R) ignore_fields) ++ [f]))))
      (if (setDiff (setDiff (keys P) ignore_fields) (setDiff (keys R) ignore_fields)).isEmpty
        then none
        else some ("fields: " ++ pyListRepr (sortedDedup
          (setDiff (setDiff (keys P) ignore_fields) (setDiff (keys R) ignore_fields)))))
      (modelCommon category T (dictInsert P f v) R rep)
      (modelCommon category T P R rep) := by
  have hfrsF : f ∉ setDiff (keys R) ignore_fields := fun hin => hfr (mem_setDiff.1 hin).1
  have hkeys : keys (dictInsert P f v) = keys P ++ [f] := by
    rw [keys_dictInsert]
    rw [if_neg (by simp [containsKey, hfp])]
  have hpyF : setDiff (keys (dictInsert P f v)) ignore_fields =
      setDiff (keys P) ignore_fields ++ [f] := by
    rw [hkeys]
    unfold setDiff
    rw [List.filter_append]
    congr 1
    simp [hfig]
  have hmiss : setDiff (setDiff (keys P) ignore_fields ++ [f]) (setDiff (keys R) ignore_fields) =
      setDiff (setDiff (keys P) ignore_fields) (setDiff (keys R) ignore_fields) ++ [f] := by
    unfold setDiff
    rw [List.filter_append]
    congr 1
    simp
    exact Or.inl hfr
  have hextra : setDiff (setDiff (keys R) ignore_fields)
        (setDiff (keys P) ignore_fields ++ [f]) =
      setDiff (setDiff (keys R) ignore_fields) (setDiff (keys P) ignore_fields) := by
    unfold setDiff
    apply List.filter_congr
    intro x hx
    have hxf : x ≠ f := fun he => hfrsF (he ▸ hx)
    have hcc : (setDiff (keys P) ignore_fields ++ [f]).contains x =
        (setDiff (keys P) ignore_fields).contains x := by
      apply bool_eq_of_iff
      simp [hxf]
    unfold setDiff at hcc
    rw [hcc]
  have hinter : setInter (setDiff (keys P) ignore_fields ++ [f])
        (setDiff (keys R) ignore_fields) =
      setInter (setDiff (keys P) ignore_fields) (setDiff (keys R) ignore_fields) := by
    unfold setInter
    rw [List.filter_append]
    have hf0 : List.filter
        (fun x => (setDiff (keys R) ignore_fields).contains x) [f] = [] := by
      rw [List.filter_eq_nil_iff]
      intro x hx
      rw [List.mem_singleton] at hx
      subst hx
      simpa using hfrsF
    rw [hf0, List.append_nil]
  unfold modelCommon
  dsimp only
  rw [hpyF]
  rw [hmiss, hextra, hinter]
  have hcong : ∀ (b : DriftReport) (fld : String),
      fld ∈ sortedDedup (setInter (setDiff (keys P) ignore_fields)
        (setDiff (keys R) ignore_fields)) →
      fieldStep category T (dictInsert P f v) R b fld = fieldStep category T P R b fld := by
    intro b fld hfld
    rw [mem_sortedDedup, mem_setInter] at hfld
    have hne : fld ≠ f := fun he => hfp (he ▸ (mem_setDiff.1 hfld.1).1)
    exact fieldStep_congr category T P R (dictInsert P f v) R fld
      (by rw [lookup_dictInsert_ne P v hne]) rfl b
  rw [foldl_congr_mem hcong]
  apply mirRel_fold_fieldStep
  have hne : (!(setDiff (setDiff (keys P) ignore_fields)
      (setDiff (keys R) ignore_fields) ++ [f]).isEmpty) = true := by simp
  rw [if_pos hne]
  by_cases hm : (!(setDiff (setDiff (keys P) ignore_fields)
      (setDiff (keys R) ignore_fields)).isEmpty) = true
  · rw [if_pos hm]
    rw [if_neg (show ¬(setDiff (setDiff (keys P) ignore_fields)
        (setDiff (keys R) ignore_fields)).isEmpty = true by simp at hm ⊢; exact hm)]
    have hbase : mirRel (category ++ "/" ++ T)
        (some ("fields: " ++ pyListRepr (sortedDedup
          (setDiff (setDiff (keys P) ignore_fields)
            (setDiff (keys R) ignore_fields) ++ [f]))))
        (some ("fields: " ++ pyListRepr (sortedDedup
          (setDiff (setDiff (keys P) ignore_fields)
            (setDiff (keys R) ignore_fields)))))
        { rep with missing_in_rust := (dictInsert rep.missing_in_rust (category ++ "/" ++ T)
            ("fields: " ++ pyListRepr (sortedDedup
              (setDiff (setDiff (keys P) ignore_fields)
                (setDiff (keys R) ignore_fields) ++ [f])))) }
        { rep with missing_in_rust := (dictInsert rep.missing_in_rust (category ++ "/" ++ T)
            ("fields: " ++ pyListRepr (sortedDedup
              (setDiff (setDiff (keys P) ignore_fields)
                (setDiff (keys R) ignore_fields))))) } := by
      refine ⟨rfl, rfl, fun k hk => ?_, ?_, ?_⟩
      · show List.lookup k (dictInsert rep.missing_in_rust _ _) = _
        rw [lookup_dictInsert_ne _ _ hk, lookup_dictInsert_ne _ _ hk]
      · exact lookup_dictInsert_self _ _ _
      · exact lookup_dictInsert_self _ _ _
    split_ifs with he
    · exact mirRel_insert_mip hbase _ _
    · exact hbase
  · rw [if_neg hm]
    rw [if_pos (show (setDiff (setDiff (keys P) ignore_fields)
        (setDiff (keys R) ignore_fields)).isEmpty = true by
      simp at hm
      rw [hm]
      rfl)]
    have hbase : mirRel (category ++ "/" ++ T)
        (some ("fields: " ++ pyListRepr (sortedDedup
          (setDiff (setDiff (keys P) ignore_fields)
            (setDiff (keys R) ignore_fields) ++ [f]))))
        none
        { rep with missing_in_rust := (dictInsert rep.missing_in_rust (category ++ "/" ++ T)
            ("fields: " ++ pyListRepr (sortedDedup
              (setDiff (setDiff (keys P) ignore_fields)
                (setDiff (keys R) ignore_fields) ++ [f])))) }
        rep := by
      refine ⟨rfl, rfl, fun k hk => ?_, ?_, h0⟩
      · show List.lookup k (dictInsert rep.missing_in_rust _ _) = _
        rw [lookup_dictInsert_ne _ _ hk]
      · exact lookup_dictInsert_self _ _ _
    split_ifs with he
    · exact mirRel_insert_mip hbase _ _
    · exact hbase

end BO4E

namespace BO4E

theorem lookup_addField_ne (M : Models) (T g : String) (v : Option String) {n : String}
    (hne : n ≠ T) : List.lookup n (addField M T g v) = List.lookup n M := by
  rw [lookup_addField]
  rw [if_neg (by simp [hne])]

theorem modelStep_addField_ne (category : String) (pyM rsM : Models) (T f : String)
    (v : Option String) {n : String} (hne : n ≠ T) (rep : DriftReport) :
    modelStep category (addField pyM T f v) rsM rep n = modelStep category pyM rsM rep n := by
  refine modelStep_congr category pyM rsM (addField pyM T f v) rsM n rfl
    (by unfold containsKey; rw [keys_addField]) (fun x => ?_) (fun x => Iff.rfl)
    (fun fld _ => ?_) (fun fld _ => rfl) rep
  · rw [lookup_addField_ne pyM T f v hne]
  · rw [lookup_addField_ne pyM T f v hne]

/-- C8 counterexample: adding to type "T" of snapshot A the ignore-listed
field "_typ" - a field that does not exist in snapshot B's "T" - adds no
entry to `missing_in_rust` at all: the report stays empty. -/
theorem add_ignore_field_no_finding_cx :
    ("_typ" ∉ keys ([] : Props)) ∧
    compare_models "bo" [("T", ([] : Props))] [("T", ([] : Props))] emptyReport =
      emptyReport ∧
    compare_models "bo" (addField [("T", [])] "T" "_typ" (some "string"))
        [("T", [])] emptyReport = emptyReport := by
  exact ⟨by decide, rfl, rfl⟩

/-- C8 (amended): adding to a type `T` present in both snapshots a
non-ignore-listed field `f` that exists in neither side's definition of
`T` strictly adds `f` to the `missing_in_rust` entry for `T` - creating
the entry when `T` previously had no missing fields, extending its sorted
field list otherwise - and never removes any existing finding:
`missing_in_python` and `type_mismatches` are unchanged, and every other
`missing_in_rust` entry is preserved. -/
theorem add_field_monotonic (category T f : String) (pyM rsM : Models)
    (v : Option String) (pyProps rsProps : Props)
    (hpy : List.lookup T pyM = some pyProps) (hrs : List.lookup T rsM = some rsProps)
    (hfig : f ∉ ignore_fields) (hfp : f ∉ keys pyProps) (hfr : f ∉ keys rsProps) :
    (compare_models category (addField pyM T f v) rsM emptyReport).missing_in_python =
      (compare_models category pyM rsM emptyReport).missing_in_python ∧
    (compare_models category (addField pyM T f v) rsM emptyReport).type_mismatches =
      (compare_models category pyM rsM emptyReport).type_mismatches ∧
    (∀ k, k ≠ category ++ "/" ++ T →
      List.lookup k (compare_models category (addField pyM T f v) rsM
          emptyReport).missing_in_rust =
        List.lookup k (compare_models category pyM rsM emptyReport).missing_in_rust) ∧
    List.lookup (category ++ "/" ++ T)
        (compare_models category (addField pyM T f v) rsM emptyReport).missing_in_rust =
      some ("fields: " ++ pyListRepr (sortedDedup
        (setDiff (setDiff (keys pyProps) ignore_fields)
          (setDiff (keys rsProps) ignore_fields) ++ [f]))) ∧
    List.lookup (category ++ "/" ++ T)
        (compare_models category pyM rsM emptyReport).missing_in_rust =
      (if (setDiff (setDiff (keys pyProps) ignore_fields)
          (setDiff (keys rsProps) ignore_fields)).isEmpty then none
       else some ("fields: " ++ pyListRepr (sortedDedup
        (setDiff (setDiff (keys pyProps) ignore_fields)
          (setDiff (keys rsProps) ignore_fields))))) ∧
    f ∈ sortedDedup (setDiff (setDiff (keys pyProps) ignore_fields)
        (setDiff (keys rsProps) ignore_fields) ++ [f]) ∧
    f ∉ sortedDedup (setDiff (setDiff (keys pyProps) ignore_fields)
        (setDiff (keys rsProps) ignore_fields)) := by
  have hTpy : T ∈ keys pyM := mem_keys_of_lookup hpy
  have hTrs : T ∈ keys rsM := mem_keys_of_lookup hrs
  have hmemf : f ∈ sortedDedup (setDiff (setDiff (keys pyProps) ignore_fields)
      (setDiff (keys rsProps) ignore_fields) ++ [f]) := by
    rw [mem_sortedDedup, List.mem_append]
    exact Or.inr (List.mem_singleton.2 rfl)
  have hnmemf : f ∉ sortedDedup (setDiff (setDiff (keys pyProps) ignore_fields)
      (setDiff (keys rsProps) ignore_fields)) := by
    rw [mem_sortedDedup, mem_setDiff]
    rintro ⟨hin, _⟩
    exact hfp (mem_setDiff.1 hin).1
  unfold compare_models
  rw [keys_addField]
  have hmem : T ∈ sortedDedup (keys pyM ++ keys rsM) := by
    rw [mem_sortedDedup, List.mem_append]
    exact Or.inl hTpy
  obtain ⟨l₁, l₂, hsplit⟩ := List.append_of_mem hmem
  have hnd := nodup_split_not_mem (hsplit ▸ nodup_sortedDedup (keys pyM ++ keys rsM))
  rw [hsplit, List.foldl_append, List.foldl_append, List.foldl_cons, List.foldl_cons]
  have hl1 : l₁.foldl (modelStep category (addField pyM T f v) rsM) emptyReport =
      l₁.foldl (modelStep category pyM rsM) emptyReport :=
    foldl_congr_mem (fun b n hn =>
      modelStep_addField_ne category pyM rsM T f v (ne_of_mem_of_not_mem hn hnd.1) b) _
  rw [hl1]
  have h0 : List.lookup (category ++ "/" ++ T)
      (l₁.foldl (modelStep category pyM rsM) emptyReport).missing_in_rust = none :=
    (foldl_lookup_preserved (modelStep category pyM rsM) (category ++ "/" ++ T) l₁
      (fun rep b hb => modelStep_lookup_preserved category pyM rsM
        (ne_of_mem_of_not_mem hb hnd.1) rep) emptyReport).1
  have hstep2 : modelStep category (addField pyM T f v) rsM
      (l₁.foldl (modelStep category pyM rsM) emptyReport) T =
      modelCommon category T (dictInsert pyProps f v) rsProps
        (l₁.foldl (modelStep category pyM rsM) emptyReport) := by
    rw [modelStep_eq_common category (addField pyM T f v) rsM _
      (by rw [keys_addField]; exact hTpy) hTrs]
    rw [show List.lookup T (addField pyM T f v) =
        some (dictInsert pyProps f v) from by
      rw [lookup_addField]
      rw [if_pos (by simp)]
      rw [hpy]
      rfl]
    rw [hrs]
    rfl
  have hstep1 : modelStep category pyM rsM
      (l₁.foldl (modelStep category pyM rsM) emptyReport) T =
      modelCommon category T pyProps rsProps
        (l₁.foldl (modelStep category pyM rsM) emptyReport) := by
    rw [modelStep_eq_common category pyM rsM _ hTpy hTrs, hpy, hrs]
    rfl
  rw [hstep2, hstep1]
  have hl2 : l₂.foldl (modelStep category (addField pyM T f v) rsM)
      (modelCommon category T (dictInsert pyProps f v) rsProps
        (l₁.foldl (modelStep category pyM rsM) emptyReport)) =
      l₂.foldl (modelStep category pyM rsM)
      (modelCommon category T (dictInsert pyProps f v) rsProps
        (l₁.foldl (modelStep category pyM rsM) emptyReport)) :=
    foldl_congr_mem (fun b n hn =>
      modelStep_addField_ne category pyM rsM T f v (ne_of_mem_of_not_mem hn hnd.2) b) _
  rw [hl2]
  have hrel := modelCommon_addField category T pyProps rsProps f v
    (l₁.foldl (modelStep category pyM rsM) emptyReport) hfig hfp hfr h0
  have hfinal := mirRel_foldl category pyM rsM l₂
    (fun n hn he => (ne_of_mem_of_not_mem hn hnd.2) (key_inj he)) hrel
  exact ⟨hfinal.1, hfinal.2.1, hfinal.2.2.1, hfinal.2.2.2.1, hfinal.2.2.2.2, hmemf, hnmemf⟩

/-- Witness for `add_field_monotonic` at concrete tables. -/
theorem add_field_monotonic_witness :
    (List.lookup "T" ([("T", [("a", some "int")])] : Models) = some [("a", some "int")] ∧
      List.lookup "T" ([("T", ([] : Props))] : Models) = some [] ∧
      "b" ∉ ignore_fields ∧ "b" ∉ keys ([("a", some "int")] : Props) ∧
      "b" ∉ keys ([] : Props)) ∧
    List.lookup ("bo" ++ "/" ++ "T")
        (compare_models "bo" (addField [("T", [("a", some "int")])] "T" "b" (some "str"))
          [("T", ([] : Props))] emptyReport).missing_in_rust =
      some ("fields: " ++ pyListRepr (sortedDedup
        (setDiff (setDiff (keys ([("a", some "int")] : Props)) ignore_fields)
          (setDiff (keys ([] : Props)) ignore_fields) ++ ["b"]))) :=
  ⟨⟨rfl, rfl, by decide, by decide, by decide⟩,
    (add_field_monotonic "bo" "T" "b" [("T", [("a", some "int")])] [("T", [])]
      (some "str") [("a", some "int")] [] rfl rfl (by decide) (by decide)
      (by decide)).2.2.2.1⟩

end BO4E
